import Mathlib

/-!
Verification of the super-ls serialization layer.

The JavaScript value universe is modelled as a mutual inductive family:
`Val` for values, `Elems` for array/set element lists, `Fields` for
own-enumerable property lists, `Pairs` for Map entry lists.  Array holes
are a distinguished element `vhole` (reading a hole yields `undefined`).
TypedArray / DataView contents are abstracted to an opaque token: no claim
depends on their bytes, only on which dispatch branch they take.
-/

namespace SuperLS

mutual

inductive Val : Type where
  | vnull : Val
  | vundef : Val
  | vbool : Bool → Val
  | vnum : Int → Val
  | vstr : String → Val
  | vbigint : Int → Val
  | vfun : Nat → Val
  | vhole : Val
  | varr : Elems → Val
  | vobj : Fields → Val
  | vmap : Pairs → Val
  | vset : Elems → Val
  | vdate : Int → Val
  | vregexp : String → Val
  | vtyped : Nat → Val
  | vdataview : Nat → Val
  | vinst : Nat → List Nat → Fields → Val
  deriving DecidableEq

inductive Elems : Type where
  | nil : Elems
  | cons : Val → Elems → Elems
  deriving DecidableEq

inductive Fields : Type where
  | nil : Fields
  | cons : String → Val → Fields → Fields
  deriving DecidableEq

inductive Pairs : Type where
  | nil : Pairs
  | cons : Val → Val → Pairs → Pairs
  deriving DecidableEq

end

open Val

/-- `isPrimitive` from the source: `value === null || typeof value !== 'object'`.
Functions have `typeof 'function'`, so they count as primitive here. -/
def isPrimitive : Val → Bool
  | vnull => true
  | vundef => true
  | vbool _ => true
  | vnum _ => true
  | vstr _ => true
  | vbigint _ => true
  | vfun _ => true
  | _ => false

/-- First-match lookup of an own property in a field list (JS objects have
unique keys; lists are read first-match everywhere for consistency). -/
def getFieldF : Fields → String → Option Val
  | Fields.nil, _ => none
  | Fields.cons k v rest, key => if k = key then some v else getFieldF rest key

/-- Keys of a field list, in order. -/
def keysF : Fields → List String
  | Fields.nil => []
  | Fields.cons k _ rest => k :: keysF rest

/-- JS truthiness of a value. -/
def truthy : Val → Bool
  | vnull => false
  | vundef => false
  | vbool b => b
  | vnum n => n ≠ 0
  | vstr s => s ≠ ""
  | vbigint n => n ≠ 0
  | vhole => false
  | _ => true

/-- `TYPE_MARKER` constant `'__super_type__'`. -/
def typeMarkerKey : String := "__super_type__"

/-- `DATA_MARKER` constant `'__data__'`. -/
def dataMarkerKey : String := "__data__"

/-- Property read `value[key]` restricted to own string-keyed properties of
objects and class instances; on every other value the named properties the
code reads (the two marker keys) are `undefined`. -/
def getProp : Val → String → Option Val
  | vobj fs, k => getFieldF fs k
  | vinst _ _ fs, k => getFieldF fs k
  | _, _ => none

/-- `hasTypeWrapper`: `value[TYPE_MARKER] && value[DATA_MARKER] !== undefined`.
An absent property reads as `undefined` (falsy, and `!== undefined` fails). -/
def hasTypeWrapper (v : Val) : Bool :=
  (match getProp v typeMarkerKey with | some m => truthy m | none => false) &&
  (match getProp v dataMarkerKey with | some d => d != vundef | none => false)

/-- Identity of the built-in `Object` constructor (for `instanceof`). -/
def objectCid : Nat := 0
/-- Identity of the built-in `Array` constructor. -/
def arrayCid : Nat := 1
/-- Identity of the built-in `Map` constructor. -/
def mapCid : Nat := 2
/-- Identity of the built-in `Set` constructor. -/
def setCid : Nat := 3
/-- Identity of the built-in `Date` constructor. -/
def dateCid : Nat := 4
/-- Identity of the built-in `RegExp` constructor. -/
def regexpCid : Nat := 5
/-- Identity of the typed-array constructors (abstracted to one). -/
def typedCid : Nat := 6
/-- Identity of the `DataView` constructor. -/
def dataviewCid : Nat := 7

/-- The constructor identities in a value's prototype chain: `v instanceof C`
holds exactly when `C`'s identity occurs here.  Primitives match nothing.
A class instance carries its chain explicitly (own class, superclasses,
`Object`). -/
def protoChain : Val → List Nat
  | vobj _ => [objectCid]
  | varr _ => [arrayCid, objectCid]
  | vmap _ => [mapCid, objectCid]
  | vset _ => [setCid, objectCid]
  | vdate _ => [dateCid, objectCid]
  | vregexp _ => [regexpCid, objectCid]
  | vtyped _ => [typedCid, objectCid]
  | vdataview _ => [dataviewCid, objectCid]
  | vinst _ chain _ => chain
  | _ => []

/-- A user class constructor: its `instanceof` identity, the prototype chain
its freshly constructed instances get, the names of its prototype-level
members (methods, getters: never own properties), an optional static
`hydrate` hook, and the own fields `new C()` produces (`none` models a
zero-argument construction that throws). -/
structure Ctor where
  name : String
  cid : Nat
  instChain : List Nat
  protoMembers : List String
  staticHydrate : Option (Fields → Option Val)
  construct0 : Option Fields

/-- `value instanceof C`. -/
def instOf (v : Val) (c : Ctor) : Bool := c.cid ∈ protoChain v

/-- The own-enumerable properties `Object.keys(value)` iterates, as a field
list: array indices become string keys (holes skipped); Map/Set/Date/RegExp
have no own enumerable properties (typed-array contents are abstracted). -/
def idxFields : Nat → Elems → Fields
  | _, Elems.nil => Fields.nil
  | i, Elems.cons v rest =>
      if v = vhole then idxFields (i + 1) rest
      else Fields.cons (toString i) v (idxFields (i + 1) rest)

/-- Own-enumerable view of a value (see `idxFields`). -/
def ownProps : Val → Fields
  | vobj fs => fs
  | vinst _ _ fs => fs
  | varr xs => idxFields 0 xs
  | _ => Fields.nil

/-- `new C()` followed by nothing: the bare instance. -/
def newInstance (c : Ctor) (base : Fields) : Val := vinst c.cid c.instChain base

/-- `instance[k] = v` for one own property: replaces an existing binding in
place, else appends (JS property-order semantics). -/
def setFieldF : Fields → String → Val → Fields
  | Fields.nil, k, v => Fields.cons k v Fields.nil
  | Fields.cons k0 v0 rest, k, v =>
      if k0 = k then Fields.cons k0 v rest
      else Fields.cons k0 v0 (setFieldF rest k v)

/-- `Object.assign(target, source)` on own fields, source keys in order. -/
def assignFields (base : Fields) : Fields → Fields
  | Fields.nil => base
  | Fields.cons k v rest => assignFields (setFieldF base k v) rest

/-- The placeholder after `Object.assign(placeholder, instance)` and
`Object.setPrototypeOf(placeholder, Object.getPrototypeOf(instance))`:
an object with the instance's own fields and the instance's prototype.
For class instances and plain objects this reproduces the instance; the
prototype of other (exotic) reconstruction results is abstracted away. -/
def absorbPlaceholder : Val → Val
  | vinst c ch fs => vinst c ch fs
  | vobj fs => vobj fs
  | v => vobj (ownProps v)

/-- `value instanceof Date || value instanceof RegExp` (decode step 4). -/
def isDateOrRegExp : Val → Bool
  | vdate _ => true
  | vregexp _ => true
  | _ => false

/- The devalue-backed implementation, from src/index.js. -/
namespace Dv

/-- The facade's registry: type name to class constructor, insertion order. -/
abbrev Registry : Type := List (String × Ctor)

/-- The loop of `_tryWrapRegisteredClass`: first registry entry (insertion
order) whose constructor `value instanceof` matches. -/
def findRegistered (reg : Registry) (v : Val) : Option (String × Ctor) :=
  List.find? (fun nc => instOf v nc.2) reg

/-- `isTypedArray`: `ArrayBuffer.isView(value) && !(value instanceof DataView)`. -/
def isTypedArrayB : Val → Bool
  | vtyped _ => true
  | _ => false

/-- `_isNativelySerializable`: Date, RegExp, or TypedArray. -/
def isNativelySerializable (v : Val) : Bool :=
  isDateOrRegExp v || isTypedArrayB v

mutual

/-- `_toSerializable`: primitives pass through; then registered-class
wrapping; then devalue-native types pass through; else collections.
(The `seen` tracker never fires on identity-distinct tree inputs; the
reference-identity behaviour is modelled separately on the heap model.) -/
def toSerializable (reg : Registry) (v : Val) : Val :=
  if isPrimitive v then v
  else
    match findRegistered reg v with
    | some nc =>
        vobj (Fields.cons typeMarkerKey (vstr nc.1)
          (Fields.cons dataMarkerKey (vobj (serializeOwn reg v)) Fields.nil))
    | none =>
        if isNativelySerializable v then v
        else serializeCollection reg v
termination_by sizeOf v * 4 + 3
decreasing_by all_goals (simp_wf; try omega)

/-- The `for (const key of Object.keys(value))` loop shared by
`_tryWrapRegisteredClass` and `_serializeObject`: each own-enumerable
property serialized recursively. -/
def serializeOwn (reg : Registry) (v : Val) : Fields :=
  match v with
  | vobj fs => serializeFields reg fs
  | vinst _ _ fs => serializeFields reg fs
  | varr xs => serializeIdx reg 0 xs
  | _ => Fields.nil
termination_by sizeOf v * 4 + 1
decreasing_by all_goals (simp_wf; try omega)

/-- `_serializeCollection`: dispatch to array, Map, Set, else plain object. -/
def serializeCollection (reg : Registry) (v : Val) : Val :=
  match v with
  | varr xs => varr (serializeArray reg xs)
  | vmap ps => vmap (serializeMap reg ps)
  | vset xs => vset (serializeSet reg xs)
  | w => vobj (serializeOwn reg w)
termination_by sizeOf v * 4 + 2
decreasing_by all_goals (simp_wf; try omega)

/-- `_serializeArray`: elementwise, holes preserved (the `i in value` guard
plus the trailing `arr.length` fixup amount to a hole-preserving map). -/
def serializeArray (reg : Registry) : Elems → Elems
  | Elems.nil => Elems.nil
  | Elems.cons v rest =>
      Elems.cons (if v = vhole then vhole else toSerializable reg v)
        (serializeArray reg rest)
termination_by xs => sizeOf xs * 4
decreasing_by all_goals (simp_wf; try omega)

/-- `_serializeMap`: keys and values both serialized. -/
def serializeMap (reg : Registry) : Pairs → Pairs
  | Pairs.nil => Pairs.nil
  | Pairs.cons k v rest =>
      Pairs.cons (toSerializable reg k) (toSerializable reg v) (serializeMap reg rest)
termination_by ps => sizeOf ps * 4
decreasing_by all_goals (simp_wf; try omega)

/-- `_serializeSet`: elements serialized. -/
def serializeSet (reg : Registry) : Elems → Elems
  | Elems.nil => Elems.nil
  | Elems.cons v rest => Elems.cons (toSerializable reg v) (serializeSet reg rest)
termination_by xs => sizeOf xs * 4
decreasing_by all_goals (simp_wf; try omega)

/-- Field list mapped through `_toSerializable`. -/
def serializeFields (reg : Registry) : Fields → Fields
  | Fields.nil => Fields.nil
  | Fields.cons k v rest =>
      Fields.cons k (toSerializable reg v) (serializeFields reg rest)
termination_by fs => sizeOf fs * 4
decreasing_by all_goals (simp_wf; try omega)

/-- Array elements viewed as indexed own properties, serialized. -/
def serializeIdx (reg : Registry) : Nat → Elems → Fields
  | _, Elems.nil => Fields.nil
  | i, Elems.cons v rest =>
      if v = vhole then serializeIdx reg (i + 1) rest
      else Fields.cons (toString i) (toSerializable reg v) (serializeIdx reg (i + 1) rest)
termination_by _ xs => sizeOf xs * 4
decreasing_by all_goals (simp_wf; try omega)

end

end Dv

/-- A looked-up own property is structurally smaller than its field list. -/
theorem sizeOf_getFieldF_lt : ∀ (fs : Fields) (k : String) (v : Val),
    getFieldF fs k = some v → sizeOf v < sizeOf fs
  | Fields.nil, _, _, h => by simp [getFieldF] at h
  | Fields.cons k0 v0 rest, k, v, h => by
      by_cases hk : k0 = k
      · rw [getFieldF, if_pos hk] at h
        cases h
        simp
        omega
      · rw [getFieldF, if_neg hk] at h
        have := sizeOf_getFieldF_lt rest k v h
        simp
        omega

/-- A property read off a value is structurally smaller than the value. -/
theorem sizeOf_getProp_lt (w : Val) (k : String) (v : Val)
    (h : getProp w k = some v) : sizeOf v < sizeOf w := by
  cases w <;> simp [getProp] at h
  case vobj fs =>
    have := sizeOf_getFieldF_lt fs k v h
    simp
    omega
  case vinst cid ch fs =>
    have := sizeOf_getFieldF_lt fs k v h
    simp
    omega

/-- `Object.keys` view of a primitive string: indexed one-character fields. -/
def strIdxFields : Nat → List Char → Fields
  | _, [] => Fields.nil
  | i, c :: rest => Fields.cons (toString i) (vstr (String.mk [c])) (strIdxFields (i + 1) rest)

namespace Dv

/-- `this.registry.get(name)`: exact string match, first binding. -/
def lookupReg : Registry → String → Option Ctor
  | [], _ => none
  | (k, c) :: rest, s => if k = s then some c else lookupReg rest s

/-- `this.registry.get(value[TYPE_MARKER])`: the registry is string-keyed,
so a non-string marker never matches. -/
def lookupMarker (reg : Registry) : Option Val → Option Ctor
  | some (vstr s) => lookupReg reg s
  | _ => none

/-- `_createInstance`: a static `hydrate` hook if the constructor has one,
else `new Constructor()` followed by `Object.assign(instance, data)`.
`none` models a throw (a `hydrate` that throws, or a zero-argument
construction that throws). -/
def createInstance (c : Ctor) (data : Fields) : Option Val :=
  match c.staticHydrate with
  | some h => h data
  | none =>
      match c.construct0 with
      | none => none
      | some base => some (vinst c.cid c.instChain (assignFields base data))

mutual

/-- `_rehydrate`: primitives pass through; wrapper-shaped values go to
`rehydrateClass`; Date/RegExp pass through; else collections.  `none`
models a thrown error.  (The `seen` tracker never fires on
identity-distinct tree inputs; see the heap model for identity.) -/
def rehydrate (reg : Registry) (v : Val) : Option Val :=
  if isPrimitive v then some v
  else if hasTypeWrapper v then rehydrateClass reg v
  else if isDateOrRegExp v then some v
  else rehydrateCollection reg v
termination_by sizeOf v * 4 + 3
decreasing_by all_goals (simp_wf; try omega)

/-- `_rehydrateClass`: unregistered markers degrade to a plain-object
decode of the whole wrapper; registered markers decode the data-marker
contents and build the instance, returning the absorbed placeholder. -/
def rehydrateClass (reg : Registry) (v : Val) : Option Val :=
  match lookupMarker reg (getProp v typeMarkerKey) with
  | none => rehydrateObject reg v
  | some c =>
      match hdm : getProp v dataMarkerKey with
      | none => none
      | some dm =>
          match rehydrateDataProps reg dm with
          | none => none
          | some hd =>
              match createInstance c hd with
              | none => none
              | some inst => some (absorbPlaceholder inst)
termination_by sizeOf v * 4 + 2
decreasing_by
  all_goals simp_wf
  all_goals try omega
  all_goals have h9 := sizeOf_getProp_lt v dataMarkerKey dm hdm
  all_goals omega

/-- The `for (const key of Object.keys(value[DATA_MARKER]))` loop:
`Object.keys` of `null`/`undefined` throws; objects, instances, arrays and
strings enumerate their own keys; other values have none. -/
def rehydrateDataProps (reg : Registry) (dm : Val) : Option Fields :=
  match dm with
  | vobj fs => rehydrateFields reg fs
  | vinst _ _ fs => rehydrateFields reg fs
  | varr xs => rehydrateIdx reg 0 xs
  | vnull => none
  | vundef => none
  | vstr s => some (strIdxFields 0 s.data)
  | _ => some Fields.nil
termination_by sizeOf dm * 4 + 3
decreasing_by all_goals (simp_wf; try omega)

/-- `_rehydrateObject`: a fresh plain object with every own-enumerable
key decoded recursively. -/
def rehydrateObject (reg : Registry) (v : Val) : Option Val :=
  match v with
  | vobj fs => (rehydrateFields reg fs).map vobj
  | vinst _ _ fs => (rehydrateFields reg fs).map vobj
  | varr xs => (rehydrateIdx reg 0 xs).map vobj
  | _ => some (vobj Fields.nil)
termination_by sizeOf v * 4 + 1
decreasing_by all_goals (simp_wf; try omega)

/-- `_rehydrateCollection`: arrays, Maps, Sets, plain objects
(`value.constructor === Object`); anything else is returned as-is. -/
def rehydrateCollection (reg : Registry) (v : Val) : Option Val :=
  match v with
  | varr xs => (rehydrateArray reg xs).map varr
  | vmap ps => (rehydrateMap reg ps).map vmap
  | vset xs => (rehydrateSet reg xs).map vset
  | vobj fs => rehydrateObject reg (vobj fs)
  | w => some w
termination_by sizeOf v * 4 + 2
decreasing_by all_goals (simp_wf; try omega)

/-- `_rehydrateArray`: every index decoded; reading a hole yields
`undefined`, so holes densify to explicit `undefined`. -/
def rehydrateArray (reg : Registry) : Elems → Option Elems
  | Elems.nil => some Elems.nil
  | Elems.cons v rest =>
      if v = vhole then (rehydrateArray reg rest).map (Elems.cons vundef)
      else
        match rehydrate reg v with
        | none => none
        | some v2 => (rehydrateArray reg rest).map (Elems.cons v2)
termination_by xs => sizeOf xs * 4
decreasing_by all_goals (simp_wf; try omega)

/-- `_rehydrateMap`: keys and values decoded. -/
def rehydrateMap (reg : Registry) : Pairs → Option Pairs
  | Pairs.nil => some Pairs.nil
  | Pairs.cons k v rest =>
      match rehydrate reg k with
      | none => none
      | some k2 =>
          match rehydrate reg v with
          | none => none
          | some v2 => (rehydrateMap reg rest).map (Pairs.cons k2 v2)
termination_by ps => sizeOf ps * 4
decreasing_by all_goals (simp_wf; try omega)

/-- `_rehydrateSet`: elements decoded. -/
def rehydrateSet (reg : Registry) : Elems → Option Elems
  | Elems.nil => some Elems.nil
  | Elems.cons v rest =>
      match rehydrate reg v with
      | none => none
      | some v2 => (rehydrateSet reg rest).map (Elems.cons v2)
termination_by xs => sizeOf xs * 4
decreasing_by all_goals (simp_wf; try omega)

/-- Field list mapped through `_rehydrate`. -/
def rehydrateFields (reg : Registry) : Fields → Option Fields
  | Fields.nil => some Fields.nil
  | Fields.cons k v rest =>
      match rehydrate reg v with
      | none => none
      | some v2 => (rehydrateFields reg rest).map (Fields.cons k v2)
termination_by fs => sizeOf fs * 4
decreasing_by all_goals (simp_wf; try omega)

/-- Array elements viewed as indexed own properties, decoded (holes are
skipped by `Object.keys`). -/
def rehydrateIdx (reg : Registry) : Nat → Elems → Option Fields
  | _, Elems.nil => some Fields.nil
  | i, Elems.cons v rest =>
      if v = vhole then rehydrateIdx reg (i + 1) rest
      else
        match rehydrate reg v with
        | none => none
        | some v2 => (rehydrateIdx reg (i + 1) rest).map (Fields.cons (toString i) v2)
termination_by _ xs => sizeOf xs * 4
decreasing_by all_goals (simp_wf; try omega)

end

end Dv

/- The V8-native-serializer-backed implementation, from
src/unnamed/part_005.  Same wrapper format, but the registry keeps an
optional reconstruction function per entry, `register` resolves overloads
by argument shape, `_isV8Native` passes more container types through, and
rehydration first tries the host hook `t.ls.hydrate`. -/
namespace V8

/-- A registry entry: the constructor plus the optional reconstruction
function supplied at registration. -/
structure RegEntry where
  ctor : Ctor
  hydrate : Option (Fields → Option Val)

/-- The facade's registry: type name to entry, insertion order. -/
abbrev Registry : Type := List (String × RegEntry)

/-- `this.registry.get(name)`: exact string match. -/
def lookupReg : Registry → String → Option RegEntry
  | [], _ => none
  | (k, e) :: rest, s => if k = s then some e else lookupReg rest s

/-- `JS Map.set`: replace an existing binding in place, else append. -/
def regSet (reg : Registry) (k : String) (e : RegEntry) : Registry :=
  match reg with
  | [] => [(k, e)]
  | (k0, e0) :: rest =>
      if k0 = k then (k0, e) :: rest
      else (k0, e0) :: regSet rest k e

/-- The first `register` argument: a callable/constructible reference, or
some non-callable value (`typeof ClassRef !== 'function'`). -/
inductive RegArg1 where
  | callableRef : Ctor → RegArg1
  | nonCallable : Val → RegArg1

/-- The second `register` argument: a function, a string, the `null`
default, or any other value. -/
inductive RegArg2 where
  | afn : (Fields → Option Val) → RegArg2
  | astr : String → RegArg2
  | anull : RegArg2
  | aother : Val → RegArg2

/-- `register(ClassRef, hydrateOrTypeName, typeName)` modelled as a state
transformer on the registry: the second component is the thrown error
message, if any (the source throws before touching the registry, so the
error path returns it unchanged).  Overloads resolve by argument shape;
`typeName || ClassRef.name` makes an empty custom name fall back to the
class name in the function-argument overload.  The delegation to the host
(`t.ls.register`) is a host side effect outside the registry. -/
def register (reg : Registry) (a1 : RegArg1) (a2 : RegArg2) (a3 : Option String) :
    Registry × Option String :=
  match a1 with
  | RegArg1.nonCallable _ => (reg, some "Invalid class: expected a constructor function")
  | RegArg1.callableRef c =>
      match a2 with
      | RegArg2.afn h =>
          let finalName :=
            match a3 with
            | some s => if s = "" then c.name else s
            | none => c.name
          (regSet reg finalName { ctor := c, hydrate := some h }, none)
      | RegArg2.astr s => (regSet reg s { ctor := c, hydrate := none }, none)
      | RegArg2.anull => (regSet reg c.name { ctor := c, hydrate := none }, none)
      | RegArg2.aother _ => (regSet reg c.name { ctor := c, hydrate := none }, none)

/-- The loop of `_tryWrapRegisteredClass`: first matching entry. -/
def findRegistered (reg : Registry) (v : Val) : Option (String × RegEntry) :=
  List.find? (fun ne => instOf v ne.2.ctor) reg

/-- `_isV8Native`: Date, RegExp, Map, Set, or `ArrayBuffer.isView`
(typed arrays and DataView alike). -/
def isV8Native : Val → Bool
  | vdate _ => true
  | vregexp _ => true
  | vmap _ => true
  | vset _ => true
  | vtyped _ => true
  | vdataview _ => true
  | _ => false

mutual

/-- `_toSerializable` (V8 variant): primitives pass through; then
registered-class wrapping; then V8-native types pass through unmodified;
else collections. -/
def toSerializable (reg : Registry) (v : Val) : Val :=
  if isPrimitive v then v
  else
    match findRegistered reg v with
    | some ne =>
        vobj (Fields.cons typeMarkerKey (vstr ne.1)
          (Fields.cons dataMarkerKey (vobj (serializeOwn reg v)) Fields.nil))
    | none =>
        if isV8Native v then v
        else serializeCollection reg v
termination_by sizeOf v * 4 + 3
decreasing_by all_goals (simp_wf; try omega)

/-- The `for (const key of Object.keys(value))` loop of
`_tryWrapRegisteredClass` / `_serializeObject`. -/
def serializeOwn (reg : Registry) (v : Val) : Fields :=
  match v with
  | vobj fs => serializeFields reg fs
  | vinst _ _ fs => serializeFields reg fs
  | varr xs => serializeIdx reg 0 xs
  | _ => Fields.nil
termination_by sizeOf v * 4 + 1
decreasing_by all_goals (simp_wf; try omega)

/-- `_serializeCollection` (V8 variant; for Map and Set this code is
unreachable from `_toSerializable`, which already returned them at the
`_isV8Native` check). -/
def serializeCollection (reg : Registry) (v : Val) : Val :=
  match v with
  | varr xs => varr (serializeArray reg xs)
  | vmap ps => vmap (serializeMap reg ps)
  | vset xs => vset (serializeSet reg xs)
  | w => vobj (serializeOwn reg w)
termination_by sizeOf v * 4 + 2
decreasing_by all_goals (simp_wf; try omega)

/-- `_serializeArray` (V8 variant). -/
def serializeArray (reg : Registry) : Elems → Elems
  | Elems.nil => Elems.nil
  | Elems.cons v rest =>
      Elems.cons (if v = vhole then vhole else toSerializable reg v)
        (serializeArray reg rest)
termination_by xs => sizeOf xs * 4
decreasing_by all_goals (simp_wf; try omega)

/-- `_serializeMap` (V8 variant). -/
def serializeMap (reg : Registry) : Pairs → Pairs
  | Pairs.nil => Pairs.nil
  | Pairs.cons k v rest =>
      Pairs.cons (toSerializable reg k) (toSerializable reg v) (serializeMap reg rest)
termination_by ps => sizeOf ps * 4
decreasing_by all_goals (simp_wf; try omega)

/-- `_serializeSet` (V8 variant). -/
def serializeSet (reg : Registry) : Elems → Elems
  | Elems.nil => Elems.nil
  | Elems.cons v rest => Elems.cons (toSerializable reg v) (serializeSet reg rest)
termination_by xs => sizeOf xs * 4
decreasing_by all_goals (simp_wf; try omega)

/-- Field list mapped through `_toSerializable` (V8 variant). -/
def serializeFields (reg : Registry) : Fields → Fields
  | Fields.nil => Fields.nil
  | Fields.cons k v rest =>
      Fields.cons k (toSerializable reg v) (serializeFields reg rest)
termination_by fs => sizeOf fs * 4
decreasing_by all_goals (simp_wf; try omega)

/-- Array elements viewed as indexed own properties (V8 variant). -/
def serializeIdx (reg : Registry) : Nat → Elems → Fields
  | _, Elems.nil => Fields.nil
  | i, Elems.cons v rest =>
      if v = vhole then serializeIdx reg (i + 1) rest
      else Fields.cons (toString i) (toSerializable reg v) (serializeIdx reg (i + 1) rest)
termination_by _ xs => sizeOf xs * 4
decreasing_by all_goals (simp_wf; try omega)

end

/-- `_createInstance` (V8 variant): the reconstruction function supplied at
registration takes priority, then a static `hydrate` on the constructor,
then zero-argument construction plus `Object.assign`.  `none` models a
thrown error (uncaught here: it propagates out of decode). -/
def createInstance (e : RegEntry) (data : Fields) : Option Val :=
  match e.hydrate with
  | some h => h data
  | none =>
      match e.ctor.staticHydrate with
      | some h => h data
      | none =>
          match e.ctor.construct0 with
          | none => none
          | some base => some (vinst e.ctor.cid e.ctor.instChain (assignFields base data))

mutual

/-- `_rehydrate` (V8 variant).  `host` is the Titan runtime's
`t.ls.hydrate` hook, an external collaborator: `none` models it throwing
(which the source catches, falling back to `_createInstance`). -/
def rehydrate (host : String → Fields → Option Val) (reg : Registry) (v : Val) :
    Option Val :=
  if isPrimitive v then some v
  else if hasTypeWrapper v then rehydrateClass host reg v
  else if isDateOrRegExp v then some v
  else rehydrateCollection host reg v
termination_by sizeOf v * 4 + 3
decreasing_by all_goals (simp_wf; try omega)

/-- `_rehydrateClass` (V8 variant): unregistered markers degrade to a
plain-object decode; registered markers decode the data, then try the
host hook, then `_createInstance`, and return the absorbed placeholder.
(The frozen/sealed/non-extensible transfer touches state this value
model does not represent.) -/
def rehydrateClass (host : String → Fields → Option Val) (reg : Registry) (v : Val) :
    Option Val :=
  match getProp v typeMarkerKey with
  | some (vstr tn) =>
      match lookupReg reg tn with
      | none => rehydrateObject host reg v
      | some entry =>
          match hdm : getProp v dataMarkerKey with
          | none => none
          | some dm =>
              match rehydrateDataProps host reg dm with
              | none => none
              | some hd =>
                  match host tn hd with
                  | some inst => some (absorbPlaceholder inst)
                  | none =>
                      match createInstance entry hd with
                      | none => none
                      | some inst => some (absorbPlaceholder inst)
  | _ => rehydrateObject host reg v
termination_by sizeOf v * 4 + 2
decreasing_by
  all_goals simp_wf
  all_goals try omega
  all_goals have h9 := sizeOf_getProp_lt v dataMarkerKey dm hdm
  all_goals omega

/-- The `Object.keys(value[DATA_MARKER])` loop (V8 variant). -/
def rehydrateDataProps (host : String → Fields → Option Val) (reg : Registry) (dm : Val) :
    Option Fields :=
  match dm with
  | vobj fs => rehydrateFields host reg fs
  | vinst _ _ fs => rehydrateFields host reg fs
  | varr xs => rehydrateIdx host reg 0 xs
  | vnull => none
  | vundef => none
  | vstr s => some (strIdxFields 0 s.data)
  | _ => some Fields.nil
termination_by sizeOf dm * 4 + 3
decreasing_by all_goals (simp_wf; try omega)

/-- `_rehydrateObject` (V8 variant). -/
def rehydrateObject (host : String → Fields → Option Val) (reg : Registry) (v : Val) :
    Option Val :=
  match v with
  | vobj fs => (rehydrateFields host reg fs).map vobj
  | vinst _ _ fs => (rehydrateFields host reg fs).map vobj
  | varr xs => (rehydrateIdx host reg 0 xs).map vobj
  | _ => some (vobj Fields.nil)
termination_by sizeOf v * 4 + 1
decreasing_by all_goals (simp_wf; try omega)

/-- `_rehydrateCollection` (V8 variant). -/
def rehydrateCollection (host : String → Fields → Option Val) (reg : Registry) (v : Val) :
    Option Val :=
  match v with
  | varr xs => (rehydrateArray host reg xs).map varr
  | vmap ps => (rehydrateMap host reg ps).map vmap
  | vset xs => (rehydrateSet host reg xs).map vset
  | vobj fs => rehydrateObject host reg (vobj fs)
  | w => some w
termination_by sizeOf v * 4 + 2
decreasing_by all_goals (simp_wf; try omega)

/-- `_rehydrateArray` (V8 variant). -/
def rehydrateArray (host : String → Fields → Option Val) (reg : Registry) :
    Elems → Option Elems
  | Elems.nil => some Elems.nil
  | Elems.cons v rest =>
      if v = vhole then (rehydrateArray host reg rest).map (Elems.cons vundef)
      else
        match rehydrate host reg v with
        | none => none
        | some v2 => (rehydrateArray host reg rest).map (Elems.cons v2)
termination_by xs => sizeOf xs * 4
decreasing_by all_goals (simp_wf; try omega)

/-- `_rehydrateMap` (V8 variant). -/
def rehydrateMap (host : String → Fields → Option Val) (reg : Registry) :
    Pairs → Option Pairs
  | Pairs.nil => some Pairs.nil
  | Pairs.cons k v rest =>
      match rehydrate host reg k with
      | none => none
      | some k2 =>
          match rehydrate host reg v with
          | none => none
          | some v2 => (rehydrateMap host reg rest).map (Pairs.cons k2 v2)
termination_by ps => sizeOf ps * 4
decreasing_by all_goals (simp_wf; try omega)

/-- `_rehydrateSet` (V8 variant). -/
def rehydrateSet (host : String → Fields → Option Val) (reg : Registry) :
    Elems → Option Elems
  | Elems.nil => some Elems.nil
  | Elems.cons v rest =>
      match rehydrate host reg v with
      | none => none
      | some v2 => (rehydrateSet host reg rest).map (Elems.cons v2)
termination_by xs => sizeOf xs * 4
decreasing_by all_goals (simp_wf; try omega)

/-- Field list mapped through `_rehydrate` (V8 variant). -/
def rehydrateFields (host : String → Fields → Option Val) (reg : Registry) :
    Fields → Option Fields
  | Fields.nil => some Fields.nil
  | Fields.cons k v rest =>
      match rehydrate host reg v with
      | none => none
      | some v2 => (rehydrateFields host reg rest).map (Fields.cons k v2)
termination_by fs => sizeOf fs * 4
decreasing_by all_goals (simp_wf; try omega)

/-- Array elements viewed as indexed own properties, decoded (V8 variant). -/
def rehydrateIdx (host : String → Fields → Option Val) (reg : Registry) :
    Nat → Elems → Option Fields
  | _, Elems.nil => some Fields.nil
  | i, Elems.cons v rest =>
      if v = vhole then rehydrateIdx host reg (i + 1) rest
      else
        match rehydrate host reg v with
        | none => none
        | some v2 => (rehydrateIdx host reg (i + 1) rest).map (Fields.cons (toString i) v2)
termination_by _ xs => sizeOf xs * 4
decreasing_by all_goals (simp_wf; try omega)

end

end V8

/- The storage facade of the devalue-backed variant (set/get/remove/has in
src/index.js), over the host string store t.ls. -/
namespace Facade

/-- Modelled from the spec: the host key-value string store `t.ls`
(an external collaborator; `get` yields null for a missing key, modelled
as `none`). -/
abbrev Store : Type := List (String × String)

/-- Modelled from the spec: `t.ls.get`. -/
def storeGet : Store → String → Option String
  | [], _ => none
  | (k, s) :: rest, key => if k = key then some s else storeGet rest key

/-- Modelled from the spec: `t.ls.set` (upsert). -/
def storeSet : Store → String → String → Store
  | [], key, s => [(key, s)]
  | (k0, s0) :: rest, key, s =>
      if k0 = key then (k0, s) :: rest else (k0, s0) :: storeSet rest key s

/-- Modelled from the spec: `t.ls.remove`. -/
def storeRemove : Store → String → Store
  | [], _ => []
  | (k0, s0) :: rest, key =>
      if k0 = key then storeRemove rest key else (k0, s0) :: storeRemove rest key

/-- `set(key, value)`: stringify the encoded payload (devalue's
`stringify` is an external collaborator, passed as a function) and store
it at `prefix + key`. -/
def setOp (pfx : String) (reg : Dv.Registry) (stringifyFn : Val → String)
    (st : Store) (key : String) (value : Val) : Store :=
  storeSet st (pfx ++ key) (stringifyFn (Dv.toSerializable reg value))

/-- `get(key)`: read `prefix + key`; a missing or falsy raw string yields
null; otherwise parse (external collaborator) and rehydrate. -/
def getOp (pfx : String) (reg : Dv.Registry) (parseFn : String → Val)
    (st : Store) (key : String) : Option Val :=
  match storeGet st (pfx ++ key) with
  | none => none
  | some raw => if raw = "" then none else Dv.rehydrate reg (parseFn raw)

/-- `remove(key)`: remove `prefix + key`. -/
def removeOp (pfx : String) (st : Store) (key : String) : Store :=
  storeRemove st (pfx ++ key)

/-- `has(key)`: reads the raw, unprefixed key from the store and checks
the value is neither null nor undefined. -/
def hasOp (st : Store) (key : String) : Bool :=
  match storeGet st key with
  | none => false
  | some _ => true

end Facade

/- The reference-identity model: object graphs as explicit heaps, used for
the cycle-preservation behaviour of `_serializeObject` / `_rehydrateObject`
(the `seen` tracker registers the replacement *before* recursing into
children).  Scope: the plain-object fragment those two functions walk;
nodes are plain objects whose fields are primitives or references. -/
namespace Graph

/-- A heap value: a primitive, or a reference to a heap node (JS object
identity). -/
inductive HVal : Type where
  | hnull : HVal
  | hundef : HVal
  | hbool : Bool → HVal
  | hnum : Int → HVal
  | hstr : String → HVal
  | href : Nat → HVal
  deriving DecidableEq

open HVal

/-- A plain-object heap node: its own-enumerable fields. -/
abbrev HNode : Type := List (String × HVal)

/-- A heap: nodes addressed by position. -/
abbrev Heap : Type := List HNode

/-- The per-call `seen` WeakMap: original address to replacement address. -/
abbrev Tracker : Type := List (Nat × Nat)

/-- `seen.has` / `seen.get` combined: first binding for an address. -/
def tfind : Tracker → Nat → Option Nat
  | [], _ => none
  | (a, b) :: rest, x => if a = x then some b else tfind rest x

/-- Node lookup. -/
def nodeAt (H : Heap) (a : Nat) : Option HNode := H[a]?

/-- Write a node in place. -/
def setNode (H : Heap) (a : Nat) (n : HNode) : Heap := H.set a n

/-- First-match own-property lookup in a node. -/
def lookupH : HNode → String → Option HVal
  | [], _ => none
  | (k, v) :: rest, key => if k = key then some v else lookupH rest key

mutual

/-- `_toSerializable` restricted to the plain-object fragment, with the
heap explicit: primitives pass through; a reference already `seen` maps to
its tracked replacement; otherwise `_serializeObject` allocates the
replacement, registers it in the tracker *before* the field loop, and
writes the serialized fields at the end (observationally equal to the
source's field-at-a-time writes: nothing reads an output node's fields
during the walk).  Fuel makes the cyclic recursion structural; `none` is
fuel exhaustion or a dangling reference (impossible in a JS heap). -/
def encodeG : Nat → Heap → HVal → Tracker → Heap → Option (HVal × Tracker × Heap)
  | 0, _, _, _, _ => none
  | Nat.succ f, hin, href a, t, H =>
      (match tfind t a with
      | some b => some (href b, t, H)
      | none =>
          match nodeAt hin a with
          | none => none
          | some fields =>
              match encodeGFields f hin fields ((a, H.length) :: t) (H ++ [[]]) with
              | none => none
              | some (fs2, t2, H2) =>
                  some (href H.length, t2, setNode H2 H.length fs2))
  | Nat.succ _, _, v, t, H => some (v, t, H)

/-- The `for (const key of Object.keys(value))` loop of
`_serializeObject`, threading tracker and output heap. -/
def encodeGFields : Nat → Heap → HNode → Tracker → Heap →
    Option (HNode × Tracker × Heap)
  | 0, _, _, _, _ => none
  | Nat.succ _, _, [], t, H => some ([], t, H)
  | Nat.succ f, hin, (k, v) :: rest, t, H =>
      match encodeG f hin v t H with
      | none => none
      | some (v2, t2, H2) =>
          match encodeGFields f hin rest t2 H2 with
          | none => none
          | some (fs2, t3, H3) => some ((k, v2) :: fs2, t3, H3)

end

mutual

/-- `_rehydrate` restricted to the same fragment: mirrors `encodeG` with
`_rehydrateObject` in place of `_serializeObject` (same
register-placeholder-before-recursing discipline). -/
def decodeG : Nat → Heap → HVal → Tracker → Heap → Option (HVal × Tracker × Heap)
  | 0, _, _, _, _ => none
  | Nat.succ f, hin, href a, t, H =>
      (match tfind t a with
      | some b => some (href b, t, H)
      | none =>
          match nodeAt hin a with
          | none => none
          | some fields =>
              match decodeGFields f hin fields ((a, H.length) :: t) (H ++ [[]]) with
              | none => none
              | some (fs2, t2, H2) =>
                  some (href H.length, t2, setNode H2 H.length fs2))
  | Nat.succ _, _, v, t, H => some (v, t, H)

/-- The field loop of `_rehydrateObject`. -/
def decodeGFields : Nat → Heap → HNode → Tracker → Heap →
    Option (HNode × Tracker × Heap)
  | 0, _, _, _, _ => none
  | Nat.succ _, _, [], t, H => some ([], t, H)
  | Nat.succ f, hin, (k, v) :: rest, t, H =>
      match decodeG f hin v t H with
      | none => none
      | some (v2, t2, H2) =>
          match decodeGFields f hin rest t2 H2 with
          | none => none
          | some (fs2, t3, H3) => some ((k, v2) :: fs2, t3, H3)

end

end Graph

/-! Helper lemmas. -/

theorem storeGet_storeSet (st : Facade.Store) (k k2 s : String) :
    Facade.storeGet (Facade.storeSet st k s) k2
      = if k = k2 then some s else Facade.storeGet st k2 := by
  induction st with
  | nil => simp [Facade.storeSet, Facade.storeGet]
  | cons p rest ih =>
      obtain ⟨k0, s0⟩ := p
      by_cases h0 : k0 = k
      · subst h0
        simp [Facade.storeSet, Facade.storeGet]
        by_cases h2 : k0 = k2 <;> simp [h2]
      · simp [Facade.storeSet, Facade.storeGet, h0]
        by_cases h2 : k0 = k2
        · subst h2
          have hk : ¬ k = k0 := fun h => h0 h.symm
          simp [Facade.storeGet, hk]
        · simp [Facade.storeGet, h2, ih]

theorem append_ne_of_ne_empty (p k : String) (hp : p ≠ "") : p ++ k ≠ k := by
  intro h
  have hlen := congrArg String.length h
  rw [String.length_append] at hlen
  have hp0 : p.length ≠ 0 := by
    intro h0
    exact hp (by
      cases p with
      | mk data => cases data with
        | nil => rfl
        | cons c cs => simp [String.length] at h0)
  omega

/-- C10.  In the devalue-backed implementation, `has(key)` queries the
underlying store at the raw key with no prefix applied, whereas `set`
accesses the store at `prefix + key`; consequently, for every key with no
store entry at the unprefixed key, `has(key)` returns false even
immediately after `set(key, value)` stored a value. -/
theorem claim_c10 (pfx : String) (reg : Dv.Registry) (stringifyFn : Val → String)
    (st : Facade.Store) (key : String) (v : Val)
    (hp : pfx ≠ "") (hraw : Facade.storeGet st key = none) :
    Facade.hasOp st key = (Facade.storeGet st key).isSome ∧
    Facade.storeGet (Facade.setOp pfx reg stringifyFn st key v) (pfx ++ key)
      = some (stringifyFn (Dv.toSerializable reg v)) ∧
    Facade.hasOp (Facade.setOp pfx reg stringifyFn st key v) key = false := by
  refine ⟨?_, ?_, ?_⟩
  · unfold Facade.hasOp
    cases Facade.storeGet st key <;> simp
  · unfold Facade.setOp
    rw [storeGet_storeSet]
    simp
  · unfold Facade.hasOp Facade.setOp
    rw [storeGet_storeSet]
    rw [if_neg (append_ne_of_ne_empty pfx key hp), hraw]

/-- Witness for C10 at a concrete store and key. -/
theorem claim_c10_witness :
    ("sls_" : String) ≠ "" ∧
    Facade.storeGet [] "k" = none ∧
    Facade.hasOp (Facade.setOp "sls_" [] (fun _ => "payload") [] "k" (vnum 1)) "k"
      = false :=
  ⟨by decide, rfl,
    (claim_c10 "sls_" [] (fun _ => "payload") [] "k" (vnum 1) (by decide) rfl).2.2⟩

/-- C5 counterexample.  The encoder does not fail on a function value: it
returns it as a pass-through result (functions satisfy `isPrimitive`
because `typeof fn !== 'object'`), contradicting the claim that
`_toSerializable` itself raises an `UnsupportedTypeError` and never
returns a pass-through result for a function. -/
theorem claim_c5_counterexample :
    Dv.toSerializable [] (vfun 0) = vfun 0 ∧
    Dv.toSerializable [] (vobj (Fields.cons "fn" (vfun 0) Fields.nil))
      = vobj (Fields.cons "fn" (vfun 0) Fields.nil) := by
  constructor
  · simp [Dv.toSerializable, isPrimitive]
  · simp [Dv.toSerializable, isPrimitive, Dv.findRegistered, instOf, protoChain,
      Dv.isNativelySerializable, isDateOrRegExp, Dv.isTypedArrayB,
      Dv.serializeCollection, Dv.serializeOwn, Dv.serializeFields]

/-- C5 amended.  Both encoder variants treat every function value as a
primitive and return it unchanged (total pass-through, no error raised by
the encoder itself); the failure the facade surfaces for functions comes
from the backing serializer (devalue `stringify` / V8 `serialize`), which
is called by `set` after `_toSerializable` returns. -/
theorem claim_c5 (dreg : Dv.Registry) (vreg : V8.Registry) (id : Nat) :
    Dv.toSerializable dreg (vfun id) = vfun id ∧
    V8.toSerializable vreg (vfun id) = vfun id := by
  constructor
  · simp [Dv.toSerializable, isPrimitive]
  · simp [V8.toSerializable, isPrimitive]

theorem v8_lookupReg_regSet_self (reg : V8.Registry) (k : String) (e : V8.RegEntry) :
    V8.lookupReg (V8.regSet reg k e) k = some e := by
  induction reg with
  | nil => simp [V8.regSet, V8.lookupReg]
  | cons p rest ih =>
      obtain ⟨k0, e0⟩ := p
      by_cases h : k0 = k
      · subst h
        simp [V8.regSet, V8.lookupReg]
      · simp [V8.regSet, V8.lookupReg, h, ih]

theorem v8_lookupReg_regSet_other (reg : V8.Registry) (k : String) (e : V8.RegEntry)
    (m : String) (hm : m ≠ k) :
    V8.lookupReg (V8.regSet reg k e) m = V8.lookupReg reg m := by
  induction reg with
  | nil =>
      have : ¬ k = m := fun h => hm h.symm
      simp [V8.regSet, V8.lookupReg, this]
  | cons p rest ih =>
      obtain ⟨k0, e0⟩ := p
      by_cases h : k0 = k
      · subst h
        have : ¬ k0 = m := fun h => hm h.symm
        simp [V8.regSet, V8.lookupReg, this]
      · by_cases h2 : k0 = m
        · subst h2
          simp [V8.regSet, V8.lookupReg, h]
        · simp [V8.regSet, V8.lookupReg, h, h2, ih]

/-- C7.  `register` (V8 variant, the one carrying the reconstruction
function overloads): a non-callable first argument yields the error and
leaves the registry unchanged; a callable first argument resolves the
name by the second argument's shape (callable: reconstruction function
with optional third-argument name; string: custom name; otherwise the
constructor's intrinsic name) and inserts or overwrites exactly the one
resolved entry. -/
theorem claim_c7 (reg : V8.Registry) :
    (∀ v a2 a3, V8.register reg (V8.RegArg1.nonCallable v) a2 a3
        = (reg, some "Invalid class: expected a constructor function")) ∧
    (∀ c h s, s ≠ "" →
        V8.register reg (V8.RegArg1.callableRef c) (V8.RegArg2.afn h) (some s)
          = (V8.regSet reg s ⟨c, some h⟩, none)) ∧
    (∀ c h, V8.register reg (V8.RegArg1.callableRef c) (V8.RegArg2.afn h) none
        = (V8.regSet reg c.name ⟨c, some h⟩, none)) ∧
    (∀ c s a3, V8.register reg (V8.RegArg1.callableRef c) (V8.RegArg2.astr s) a3
        = (V8.regSet reg s ⟨c, none⟩, none)) ∧
    (∀ c a3, V8.register reg (V8.RegArg1.callableRef c) V8.RegArg2.anull a3
        = (V8.regSet reg c.name ⟨c, none⟩, none)) ∧
    (∀ k e, V8.lookupReg (V8.regSet reg k e) k = some e) ∧
    (∀ k e m, m ≠ k → V8.lookupReg (V8.regSet reg k e) m = V8.lookupReg reg m) := by
  refine ⟨fun v a2 a3 => rfl, fun c h s hs => ?_, fun c h => rfl,
    fun c s a3 => rfl, fun c a3 => rfl,
    fun k e => v8_lookupReg_regSet_self reg k e,
    fun k e m hm => v8_lookupReg_regSet_other reg k e m hm⟩
  simp [V8.register, hs]

/-- `_rehydrateClass` (devalue variant) on an unregistered marker: the
wrapper is decoded as a plain object. -/
theorem dv_rehydrateClass_unreg (reg : Dv.Registry) (v : Val)
    (hlk : Dv.lookupMarker reg (getProp v typeMarkerKey) = none) :
    Dv.rehydrateClass reg v = Dv.rehydrateObject reg v := by
  rw [Dv.rehydrateClass, hlk]

/-- `_rehydrateClass` (devalue variant) on a registered marker: decode the
data-marker contents, build the instance, absorb the placeholder. -/
theorem dv_rehydrateClass_reg (reg : Dv.Registry) (v : Val) (c : Ctor) (dm : Val)
    (hlk : Dv.lookupMarker reg (getProp v typeMarkerKey) = some c)
    (hdm : getProp v dataMarkerKey = some dm) :
    Dv.rehydrateClass reg v =
      match Dv.rehydrateDataProps reg dm with
      | none => none
      | some hd =>
          match Dv.createInstance c hd with
          | none => none
          | some inst => some (absorbPlaceholder inst) := by
  rw [Dv.rehydrateClass, hlk]
  split
  next h2 => simp at h2
  next c2 h2 =>
    injection h2 with h3
    subst h3
    split
    next h3 =>
      rw [h3] at hdm
      cases hdm
    next dm2 h3 =>
      rw [h3] at hdm
      cases hdm
      rfl

/-- A concrete registered class: zero-argument constructible, no hooks. -/
def ctorX : Ctor :=
  { name := "X", cid := 100, instChain := [100, objectCid], protoMembers := [],
    staticHydrate := none, construct0 := some Fields.nil }

/-- A concrete reconstruction function (builds an instance from the data). -/
def hydY : Fields → Option Val := fun data => some (vinst 100 [100, objectCid] data)

/-- A concrete static `hydrate` hook, distinguishable from `hydY`. -/
def statY : Fields → Option Val :=
  fun _ => some (vinst 100 [100, objectCid] (Fields.cons "src" (vstr "static") Fields.nil))

/-- A class with a static `hydrate` hook. -/
def ctorY : Ctor :=
  { name := "Y", cid := 100, instChain := [100, objectCid], protoMembers := [],
    staticHydrate := some statY, construct0 := some Fields.nil }

/-- `ctorY` registered under "Y" together with a reconstruction function. -/
def entryY : V8.RegEntry := ⟨ctorY, some hydY⟩

/-- A one-entry V8 registry. -/
def regY : V8.Registry := [("Y", entryY)]

/-- A host `t.ls.hydrate` hook that always throws. -/
def hostNone : String → Fields → Option Val := fun _ _ => none

/-- Witness for C7: registering with a reconstruction function and custom
name, the error path, and the single-entry update. -/
theorem claim_c7_witness :
    ("Gm" : String) ≠ "" ∧
    V8.register [] (V8.RegArg1.nonCallable vnull) V8.RegArg2.anull none
      = ([], some "Invalid class: expected a constructor function") ∧
    V8.register [] (V8.RegArg1.callableRef ctorX) (V8.RegArg2.afn hydY) (some "Gm")
      = (V8.regSet [] "Gm" ⟨ctorX, some hydY⟩, none) ∧
    ("other" : String) ≠ "Gm" ∧
    V8.lookupReg (V8.regSet [] "Gm" ⟨ctorX, some hydY⟩) "other"
      = V8.lookupReg [] "other" :=
  ⟨by decide, (claim_c7 []).1 vnull V8.RegArg2.anull none,
    (claim_c7 []).2.1 ctorX hydY "Gm" (by decide), by decide,
    (claim_c7 []).2.2.2.2.2.2 "Gm" ⟨ctorX, some hydY⟩ "other" (by decide)⟩

/-- C3.  For a wrapper whose type marker names a registered type, the V8
decoder constructs the instance by strict priority: the host-native hook
(`t.ls.hydrate`), falling back on its failure to the reconstruction
function supplied at registration, else the constructor's static
`hydrate`, else zero-argument construction plus assignment of all
hydrated-data keys; the registration-supplied function takes precedence
over the static hook whenever both exist. -/
theorem claim_c3 (host : String → Fields → Option Val) (reg : V8.Registry)
    (tn : String) (entry : V8.RegEntry) (dataFs hd : Fields)
    (htn : tn ≠ "")
    (hlook : V8.lookupReg reg tn = some entry)
    (hdata : V8.rehydrateFields host reg dataFs = some hd) :
    V8.rehydrate host reg
        (vobj (Fields.cons typeMarkerKey (vstr tn)
          (Fields.cons dataMarkerKey (vobj dataFs) Fields.nil)))
      = match host tn hd with
        | some inst => some (absorbPlaceholder inst)
        | none =>
            match entry.hydrate with
            | some f =>
                match f hd with
                | none => none
                | some inst => some (absorbPlaceholder inst)
            | none =>
                match entry.ctor.staticHydrate with
                | some g =>
                    match g hd with
                    | none => none
                    | some inst => some (absorbPlaceholder inst)
                | none =>
                    match entry.ctor.construct0 with
                    | none => none
                    | some base =>
                        some (absorbPlaceholder
                          (vinst entry.ctor.cid entry.ctor.instChain
                            (assignFields base hd))) := by
  have hw : hasTypeWrapper
      (vobj (Fields.cons typeMarkerKey (vstr tn)
        (Fields.cons dataMarkerKey (vobj dataFs) Fields.nil))) = true := by
    simp [hasTypeWrapper, getProp, getFieldF, truthy, typeMarkerKey, dataMarkerKey, htn]
  rw [V8.rehydrate]
  simp only [isPrimitive, hw, if_true, if_false, Bool.false_eq_true, ite_false, ite_true]
  rw [V8.rehydrateClass]
  simp only [getProp, getFieldF, typeMarkerKey, dataMarkerKey]
  simp only [String.reduceEq, if_true, if_false, ite_true, ite_false, hlook]
  split
  next hdm =>
    simp at hdm
  next dm hdm =>
    simp at hdm
    subst hdm
    simp only [V8.rehydrateDataProps]
    rw [hdata]
    cases hhost : host tn hd with
    | some inst => simp [hhost]
    | none =>
        simp only [V8.createInstance]
        cases hhyd : entry.hydrate with
        | some f => cases f hd <;> simp [hhost, hhyd]
        | none =>
            cases hstat : entry.ctor.staticHydrate with
            | some g => cases g hd <;> simp [hhost, hhyd, hstat]
            | none => cases entry.ctor.construct0 <;> simp [hhost, hhyd, hstat]

/-- A class whose reconstruction always throws: no hooks and a
zero-argument construction that throws (required constructor arguments). -/
def ctorR : Ctor :=
  { name := "R", cid := 101, instChain := [101, objectCid], protoMembers := [],
    staticHydrate := none, construct0 := none }

/-- A devalue registry containing only `ctorR` under "R". -/
def regR : Dv.Registry := [("R", ctorR)]

/-- C4 counterexample.  A wrapper whose type marker "U" is absent from the
registry can still make decode raise: its data contains a nested wrapper
of the registered type "R" whose reconstruction throws, so decode
propagates that error rather than returning a plain object. -/
theorem claim_c4_counterexample :
    Dv.lookupReg regR "U" = none ∧
    Dv.rehydrate regR
        (vobj (Fields.cons typeMarkerKey (vstr "U")
          (Fields.cons dataMarkerKey
            (vobj (Fields.cons "x"
              (vobj (Fields.cons typeMarkerKey (vstr "R")
                (Fields.cons dataMarkerKey (vobj Fields.nil) Fields.nil)))
              Fields.nil))
            Fields.nil)))
      = none := by
  constructor
  · rfl
  · simp [Dv.rehydrate, Dv.rehydrateCollection, Dv.rehydrateObject,
      Dv.rehydrateFields, Dv.rehydrateDataProps, Dv.createInstance,
      Dv.lookupMarker, Dv.lookupReg, dv_rehydrateClass_unreg, dv_rehydrateClass_reg,
      hasTypeWrapper, getProp, getFieldF, truthy, isPrimitive, isDateOrRegExp,
      typeMarkerKey, dataMarkerKey, regR, ctorR]

/-- C4 amended.  For a wrapper whose type marker is absent from the
registry, decode raises no missing-registration error: it treats the
wrapper as plain data, returning the plain object whose keys are the
wrapper's own keys recursively decoded — but an error can still
propagate from recursively decoding the nested data (for example a
nested registered wrapper whose reconstruction throws). -/
theorem claim_c4 (reg : Dv.Registry) (fields : Fields)
    (hw : hasTypeWrapper (vobj fields) = true)
    (hmiss : Dv.lookupMarker reg (getFieldF fields typeMarkerKey) = none) :
    Dv.rehydrate reg (vobj fields) = Dv.rehydrateObject reg (vobj fields) ∧
    (∀ fs2, Dv.rehydrateFields reg fields = some fs2 →
        Dv.rehydrate reg (vobj fields) = some (vobj fs2)) := by
  have h1 : Dv.rehydrate reg (vobj fields) = Dv.rehydrateClass reg (vobj fields) := by
    rw [Dv.rehydrate]
    simp [isPrimitive, hw]
  have h2 : Dv.rehydrateClass reg (vobj fields) = Dv.rehydrateObject reg (vobj fields) :=
    dv_rehydrateClass_unreg reg _ (by simpa [getProp] using hmiss)
  refine ⟨by rw [h1, h2], fun fs2 hfs => ?_⟩
  rw [h1, h2]
  simp [Dv.rehydrateObject, hfs]

/-- Witness for C4: an unregistered wrapper with plain data decodes to the
plain object with the same keys. -/
theorem claim_c4_witness :
    hasTypeWrapper (vobj (Fields.cons typeMarkerKey (vstr "U")
      (Fields.cons dataMarkerKey (vobj (Fields.cons "x" (vnum 1) Fields.nil))
        Fields.nil))) = true ∧
    Dv.lookupMarker [] (getFieldF (Fields.cons typeMarkerKey (vstr "U")
      (Fields.cons dataMarkerKey (vobj (Fields.cons "x" (vnum 1) Fields.nil))
        Fields.nil)) typeMarkerKey) = none ∧
    Dv.rehydrate [] (vobj (Fields.cons typeMarkerKey (vstr "U")
      (Fields.cons dataMarkerKey (vobj (Fields.cons "x" (vnum 1) Fields.nil))
        Fields.nil)))
      = some (vobj (Fields.cons typeMarkerKey (vstr "U")
          (Fields.cons dataMarkerKey (vobj (Fields.cons "x" (vnum 1) Fields.nil))
            Fields.nil))) := by
  refine ⟨by decide, rfl, ?_⟩
  have hfs : Dv.rehydrateFields [] (Fields.cons typeMarkerKey (vstr "U")
      (Fields.cons dataMarkerKey (vobj (Fields.cons "x" (vnum 1) Fields.nil))
        Fields.nil))
      = some (Fields.cons typeMarkerKey (vstr "U")
          (Fields.cons dataMarkerKey (vobj (Fields.cons "x" (vnum 1) Fields.nil))
            Fields.nil)) := by
    simp [Dv.rehydrateFields, Dv.rehydrate, Dv.rehydrateCollection,
      Dv.rehydrateObject, hasTypeWrapper, getProp, getFieldF, truthy,
      isPrimitive, isDateOrRegExp, typeMarkerKey, dataMarkerKey]
  exact (claim_c4 []
    (Fields.cons typeMarkerKey (vstr "U")
      (Fields.cons dataMarkerKey (vobj (Fields.cons "x" (vnum 1) Fields.nil))
        Fields.nil))
    (by decide) rfl).2 _ hfs

/-- Witness for C3: host hook throws, both a registration-supplied
reconstruction function and a static hook exist, and the
registration-supplied one wins. -/
theorem claim_c3_witness :
    ("Y" : String) ≠ "" ∧
    V8.lookupReg regY "Y" = some entryY ∧
    V8.rehydrateFields hostNone regY (Fields.cons "a" (vnum 2) Fields.nil)
      = some (Fields.cons "a" (vnum 2) Fields.nil) ∧
    V8.rehydrate hostNone regY
        (vobj (Fields.cons typeMarkerKey (vstr "Y")
          (Fields.cons dataMarkerKey
            (vobj (Fields.cons "a" (vnum 2) Fields.nil)) Fields.nil)))
      = some (vinst 100 [100, objectCid] (Fields.cons "a" (vnum 2) Fields.nil)) := by
  have hdata : V8.rehydrateFields hostNone regY (Fields.cons "a" (vnum 2) Fields.nil)
      = some (Fields.cons "a" (vnum 2) Fields.nil) := by
    simp [V8.rehydrateFields, V8.rehydrate, isPrimitive]
  refine ⟨by decide, rfl, hdata, ?_⟩
  have := claim_c3 hostNone regY "Y" entryY
    (Fields.cons "a" (vnum 2) Fields.nil) (Fields.cons "a" (vnum 2) Fields.nil)
    (by decide) rfl hdata
  simpa [hostNone, entryY, hydY, absorbPlaceholder] using this

theorem keysF_serializeFields_v8 (reg : V8.Registry) :
    ∀ fs, keysF (V8.serializeFields reg fs) = keysF fs
  | Fields.nil => by simp [V8.serializeFields, keysF]
  | Fields.cons k v rest => by
      simp only [V8.serializeFields, keysF]
      rw [keysF_serializeFields_v8 reg rest]

theorem keysF_rehydrateFields_v8 (host : String → Fields → Option Val)
    (reg : V8.Registry) :
    ∀ fs hd, V8.rehydrateFields host reg fs = some hd → keysF hd = keysF fs
  | Fields.nil, hd, h => by
      simp [V8.rehydrateFields] at h
      subst h
      rfl
  | Fields.cons k v rest, hd, h => by
      simp only [V8.rehydrateFields] at h
      cases hr : V8.rehydrate host reg v with
      | none => rw [hr] at h; cases h
      | some v2 =>
          rw [hr] at h
          cases hrest : V8.rehydrateFields host reg rest with
          | none => rw [hrest] at h; cases h
          | some fsr =>
              rw [hrest] at h
              simp at h
              subst h
              simp only [keysF]
              rw [keysF_rehydrateFields_v8 host reg rest fsr hrest]

/-- C6.  For an instance the V8 encoder wraps, the wrapper's data marker
contains exactly one key per own-enumerable property of the instance
(the model's instance fields), hence no key for any prototype-level
member (method or getter) that is not shadowed by an own property; and
the hydrated data handed to a reconstruction function at decode time has
exactly the data marker's keys. -/
theorem claim_c6 (reg : V8.Registry) (host : String → Fields → Option Val)
    (cid : Nat) (ch : List Nat) (fs : Fields) (name : String) (entry : V8.RegEntry)
    (hfind : V8.findRegistered reg (vinst cid ch fs) = some (name, entry)) :
    V8.toSerializable reg (vinst cid ch fs)
      = vobj (Fields.cons typeMarkerKey (vstr name)
          (Fields.cons dataMarkerKey (vobj (V8.serializeFields reg fs)) Fields.nil)) ∧
    keysF (V8.serializeFields reg fs) = keysF fs ∧
    (∀ m, m ∈ entry.ctor.protoMembers → m ∉ keysF fs →
        m ∉ keysF (V8.serializeFields reg fs)) ∧
    (∀ dataFs hd, V8.rehydrateFields host reg dataFs = some hd →
        keysF hd = keysF dataFs) := by
  refine ⟨?_, keysF_serializeFields_v8 reg fs, ?_, ?_⟩
  · rw [V8.toSerializable]
    simp [isPrimitive, hfind, V8.serializeOwn]
  · intro m _ hnot
    rw [keysF_serializeFields_v8]
    exact hnot
  · exact fun dataFs hd h => keysF_rehydrateFields_v8 host reg dataFs hd h

/-- A class with a prototype-level getter `getName` (never an own key). -/
def ctorG : Ctor :=
  { name := "G", cid := 102, instChain := [102, objectCid],
    protoMembers := ["getName"], staticHydrate := none,
    construct0 := some Fields.nil }

/-- `ctorG` registered under "G" with no reconstruction function. -/
def entryG : V8.RegEntry := ⟨ctorG, none⟩

/-- A one-entry V8 registry for `ctorG`. -/
def regG : V8.Registry := [("G", entryG)]

/-- Witness for C6 on a concrete instance with one own property and one
prototype getter. -/
theorem claim_c6_witness :
    V8.findRegistered regG
        (vinst 102 [102, objectCid] (Fields.cons "name" (vstr "a") Fields.nil))
      = some ("G", entryG) ∧
    "getName" ∈ entryG.ctor.protoMembers ∧
    "getName" ∉ keysF (Fields.cons "name" (vstr "a") Fields.nil) ∧
    "getName" ∉ keysF (V8.serializeFields regG (Fields.cons "name" (vstr "a") Fields.nil)) := by
  refine ⟨rfl, by decide, by decide, ?_⟩
  exact (claim_c6 regG hostNone 102 [102, objectCid]
    (Fields.cons "name" (vstr "a") Fields.nil) "G" entryG rfl).2.2.1
    "getName" (by decide) (by decide)

/-- C9.  A plain object (not an instance of anything registered) that
happens to carry a truthy `__super_type__` own property naming a
registered type, together with a non-undefined `__data__` property, is
treated by decode as a type wrapper: decode returns an instance of the
registered class built from the object's `__data__`; consequently the
object does not round-trip to a deep-equal copy of itself. -/
theorem claim_c9 (reg : Dv.Registry) (fields dataFs : Fields) (tn : String)
    (c : Ctor) (base hd : Fields)
    (htm : getFieldF fields typeMarkerKey = some (vstr tn))
    (htn : tn ≠ "")
    (hdm : getFieldF fields dataMarkerKey = some (vobj dataFs))
    (hlk : Dv.lookupReg reg tn = some c)
    (hstat : c.staticHydrate = none)
    (hc0 : c.construct0 = some base)
    (hdata : Dv.rehydrateFields reg dataFs = some hd)
    (hfr : Dv.findRegistered reg (vobj fields) = none)
    (hser : Dv.serializeFields reg fields = fields) :
    Dv.toSerializable reg (vobj fields) = vobj fields ∧
    Dv.rehydrate reg (vobj fields)
      = some (vinst c.cid c.instChain (assignFields base hd)) ∧
    Dv.rehydrate reg (Dv.toSerializable reg (vobj fields)) ≠ some (vobj fields) := by
  have henc : Dv.toSerializable reg (vobj fields) = vobj fields := by
    rw [Dv.toSerializable]
    simp [isPrimitive, hfr, Dv.isNativelySerializable, isDateOrRegExp,
      Dv.isTypedArrayB, Dv.serializeCollection, Dv.serializeOwn, hser]
  have hw : hasTypeWrapper (vobj fields) = true := by
    simp [hasTypeWrapper, getProp, htm, hdm, truthy, htn]
  have hdec : Dv.rehydrate reg (vobj fields)
      = some (vinst c.cid c.instChain (assignFields base hd)) := by
    rw [Dv.rehydrate]
    simp only [isPrimitive, hw, ite_true, ite_false, if_true, if_false,
      Bool.false_eq_true]
    rw [dv_rehydrateClass_reg reg (vobj fields) c (vobj dataFs)
      (by simp [Dv.lookupMarker, getProp, htm, hlk]) (by simp [getProp, hdm])]
    simp only [Dv.rehydrateDataProps]
    rw [hdata]
    simp [Dv.createInstance, hstat, hc0, absorbPlaceholder]
  refine ⟨henc, hdec, ?_⟩
  rw [henc, hdec]
  simp

/-- Witness for C9: `{__super_type__: "X", __data__: {a: 7}}` with class X
registered decodes to an X instance, not to itself. -/
theorem claim_c9_witness :
    getFieldF (Fields.cons typeMarkerKey (vstr "X")
        (Fields.cons dataMarkerKey (vobj (Fields.cons "a" (vnum 7) Fields.nil))
          Fields.nil)) typeMarkerKey = some (vstr "X") ∧
    Dv.lookupReg [("X", ctorX)] "X" = some ctorX ∧
    Dv.rehydrate [("X", ctorX)]
        (Dv.toSerializable [("X", ctorX)]
          (vobj (Fields.cons typeMarkerKey (vstr "X")
            (Fields.cons dataMarkerKey (vobj (Fields.cons "a" (vnum 7) Fields.nil))
              Fields.nil))))
      ≠ some (vobj (Fields.cons typeMarkerKey (vstr "X")
          (Fields.cons dataMarkerKey (vobj (Fields.cons "a" (vnum 7) Fields.nil))
            Fields.nil))) := by
  have hdata : Dv.rehydrateFields [("X", ctorX)] (Fields.cons "a" (vnum 7) Fields.nil)
      = some (Fields.cons "a" (vnum 7) Fields.nil) := by
    simp [Dv.rehydrateFields, Dv.rehydrate, isPrimitive]
  have hser : Dv.serializeFields [("X", ctorX)]
      (Fields.cons typeMarkerKey (vstr "X")
        (Fields.cons dataMarkerKey (vobj (Fields.cons "a" (vnum 7) Fields.nil))
          Fields.nil))
      = Fields.cons typeMarkerKey (vstr "X")
          (Fields.cons dataMarkerKey (vobj (Fields.cons "a" (vnum 7) Fields.nil))
            Fields.nil) := by
    simp [Dv.serializeFields, Dv.toSerializable, isPrimitive, Dv.findRegistered,
      instOf, protoChain, ctorX, objectCid, Dv.isNativelySerializable,
      isDateOrRegExp, Dv.isTypedArrayB, Dv.serializeCollection, Dv.serializeOwn]
  refine ⟨rfl, rfl, ?_⟩
  exact (claim_c9 [("X", ctorX)]
    (Fields.cons typeMarkerKey (vstr "X")
      (Fields.cons dataMarkerKey (vobj (Fields.cons "a" (vnum 7) Fields.nil))
        Fields.nil))
    (Fields.cons "a" (vnum 7) Fields.nil) "X"
    ctorX Fields.nil (Fields.cons "a" (vnum 7) Fields.nil)
    rfl (by decide) rfl rfl rfl rfl hdata rfl hser).2.2

/-! C1: round-trip for JSON-representable plain data. -/

mutual

/-- JSON-representable values: null, booleans, numbers, strings, arrays
of such, plain objects of such (no holes, no undefined, no rich types). -/
def jsonVal : Val → Bool
  | vnull => true
  | vbool _ => true
  | vnum _ => true
  | vstr _ => true
  | varr xs => jsonElems xs
  | vobj fs => jsonFields fs
  | _ => false

/-- All array elements JSON-representable (a hole is not). -/
def jsonElems : Elems → Bool
  | Elems.nil => true
  | Elems.cons v rest => jsonVal v && jsonElems rest

/-- All field values JSON-representable. -/
def jsonFields : Fields → Bool
  | Fields.nil => true
  | Fields.cons _ v rest => jsonVal v && jsonFields rest

end

mutual

/-- No part of the (JSON) value is `instanceof` any registered
constructor: the registry's `_tryWrapRegisteredClass` scan misses at
every array/object node. -/
def noRegNode (reg : Dv.Registry) : Val → Bool
  | varr xs => (Dv.findRegistered reg (varr xs)).isNone && noRegElems reg xs
  | vobj fs => (Dv.findRegistered reg (vobj fs)).isNone && noRegFields reg fs
  | _ => true

/-- `noRegNode` over array elements. -/
def noRegElems (reg : Dv.Registry) : Elems → Bool
  | Elems.nil => true
  | Elems.cons v rest => noRegNode reg v && noRegElems reg rest

/-- `noRegNode` over field values. -/
def noRegFields (reg : Dv.Registry) : Fields → Bool
  | Fields.nil => true
  | Fields.cons _ v rest => noRegNode reg v && noRegFields reg rest

end

mutual

/-- No part of the (JSON) value is an object that decode would hijack as
a type wrapper of a registered type: no node both has the wrapper shape
and carries a marker that resolves in the registry. -/
def noHijack (reg : Dv.Registry) : Val → Bool
  | vobj fs =>
      !(hasTypeWrapper (vobj fs)
          && (Dv.lookupMarker reg (getFieldF fs typeMarkerKey)).isSome)
        && noHijackFields reg fs
  | varr xs => noHijackElems reg xs
  | _ => true

/-- `noHijack` over array elements. -/
def noHijackElems (reg : Dv.Registry) : Elems → Bool
  | Elems.nil => true
  | Elems.cons v rest => noHijack reg v && noHijackElems reg rest

/-- `noHijack` over field values. -/
def noHijackFields (reg : Dv.Registry) : Fields → Bool
  | Fields.nil => true
  | Fields.cons _ v rest => noHijack reg v && noHijackFields reg rest

end

mutual

theorem dv_encode_json_id (reg : Dv.Registry) :
    ∀ v, jsonVal v = true → noRegNode reg v = true → Dv.toSerializable reg v = v
  | vnull, _, _ => by simp [Dv.toSerializable, isPrimitive]
  | vbool b, _, _ => by simp [Dv.toSerializable, isPrimitive]
  | vnum n, _, _ => by simp [Dv.toSerializable, isPrimitive]
  | vstr s, _, _ => by simp [Dv.toSerializable, isPrimitive]
  | vundef, hj, _ => by simp [jsonVal] at hj
  | vbigint _, hj, _ => by simp [jsonVal] at hj
  | vfun _, hj, _ => by simp [jsonVal] at hj
  | vhole, hj, _ => by simp [jsonVal] at hj
  | vmap _, hj, _ => by simp [jsonVal] at hj
  | vset _, hj, _ => by simp [jsonVal] at hj
  | vdate _, hj, _ => by simp [jsonVal] at hj
  | vregexp _, hj, _ => by simp [jsonVal] at hj
  | vtyped _, hj, _ => by simp [jsonVal] at hj
  | vdataview _, hj, _ => by simp [jsonVal] at hj
  | vinst _ _ _, hj, _ => by simp [jsonVal] at hj
  | varr xs, hj, hr => by
      simp only [jsonVal] at hj
      simp only [noRegNode, Bool.and_eq_true, Option.isNone_iff_eq_none] at hr
      rw [Dv.toSerializable]
      simp [isPrimitive, hr.1, Dv.isNativelySerializable, isDateOrRegExp,
        Dv.isTypedArrayB, Dv.serializeCollection]
      exact dv_encode_elems_id reg xs hj hr.2
  | vobj fs, hj, hr => by
      simp only [jsonVal] at hj
      simp only [noRegNode, Bool.and_eq_true, Option.isNone_iff_eq_none] at hr
      rw [Dv.toSerializable]
      simp [isPrimitive, hr.1, Dv.isNativelySerializable, isDateOrRegExp,
        Dv.isTypedArrayB, Dv.serializeCollection, Dv.serializeOwn]
      exact dv_encode_fields_id reg fs hj hr.2

theorem dv_encode_elems_id (reg : Dv.Registry) :
    ∀ xs, jsonElems xs = true → noRegElems reg xs = true →
      Dv.serializeArray reg xs = xs
  | Elems.nil, _, _ => by simp [Dv.serializeArray]
  | Elems.cons v rest, hj, hr => by
      simp only [jsonElems, Bool.and_eq_true] at hj
      simp only [noRegElems, Bool.and_eq_true] at hr
      have hv : v ≠ vhole := by
        intro h
        subst h
        simp [jsonVal] at hj
      rw [Dv.serializeArray]
      rw [if_neg hv]
      rw [dv_encode_json_id reg v hj.1 hr.1]
      rw [dv_encode_elems_id reg rest hj.2 hr.2]

theorem dv_encode_fields_id (reg : Dv.Registry) :
    ∀ fs, jsonFields fs = true → noRegFields reg fs = true →
      Dv.serializeFields reg fs = fs
  | Fields.nil, _, _ => by simp [Dv.serializeFields]
  | Fields.cons k v rest, hj, hr => by
      simp only [jsonFields, Bool.and_eq_true] at hj
      simp only [noRegFields, Bool.and_eq_true] at hr
      rw [Dv.serializeFields]
      rw [dv_encode_json_id reg v hj.1 hr.1]
      rw [dv_encode_fields_id reg rest hj.2 hr.2]

end

mutual

theorem dv_decode_json_id (reg : Dv.Registry) :
    ∀ v, jsonVal v = true → noHijack reg v = true → Dv.rehydrate reg v = some v
  | vnull, _, _ => by simp [Dv.rehydrate, isPrimitive]
  | vbool b, _, _ => by simp [Dv.rehydrate, isPrimitive]
  | vnum n, _, _ => by simp [Dv.rehydrate, isPrimitive]
  | vstr s, _, _ => by simp [Dv.rehydrate, isPrimitive]
  | vundef, hj, _ => by simp [jsonVal] at hj
  | vbigint _, hj, _ => by simp [jsonVal] at hj
  | vfun _, hj, _ => by simp [jsonVal] at hj
  | vhole, hj, _ => by simp [jsonVal] at hj
  | vmap _, hj, _ => by simp [jsonVal] at hj
  | vset _, hj, _ => by simp [jsonVal] at hj
  | vdate _, hj, _ => by simp [jsonVal] at hj
  | vregexp _, hj, _ => by simp [jsonVal] at hj
  | vtyped _, hj, _ => by simp [jsonVal] at hj
  | vdataview _, hj, _ => by simp [jsonVal] at hj
  | vinst _ _ _, hj, _ => by simp [jsonVal] at hj
  | varr xs, hj, hh => by
      simp only [jsonVal] at hj
      simp only [noHijack] at hh
      rw [Dv.rehydrate]
      simp [isPrimitive, hasTypeWrapper, getProp, isDateOrRegExp,
        Dv.rehydrateCollection]
      rw [dv_decode_elems_id reg xs hj hh]
  | vobj fs, hj, hh => by
      simp only [jsonVal] at hj
      simp only [noHijack, Bool.and_eq_true, Bool.not_eq_eq_eq_not, Bool.not_true,
        Bool.and_eq_false_imp] at hh
      have hobj : Dv.rehydrateObject reg (vobj fs) = some (vobj fs) := by
        rw [Dv.rehydrateObject]
        rw [dv_decode_fields_id reg fs hj hh.2]
        rfl
      rw [Dv.rehydrate]
      by_cases hw : hasTypeWrapper (vobj fs)
      · have hmiss : Dv.lookupMarker reg (getProp (vobj fs) typeMarkerKey) = none := by
          have := hh.1 hw
          simp only [getProp]
          exact Option.not_isSome_iff_eq_none.mp (by rw [this]; simp)
        simp only [isPrimitive, hw, ite_true, ite_false, if_false, if_true,
          Bool.false_eq_true]
        rw [dv_rehydrateClass_unreg reg (vobj fs) hmiss]
        exact hobj
      · simp only [isPrimitive, hw, ite_true, ite_false, if_false, if_true,
          Bool.false_eq_true, isDateOrRegExp]
        rw [Dv.rehydrateCollection]
        exact hobj

theorem dv_decode_elems_id (reg : Dv.Registry) :
    ∀ xs, jsonElems xs = true → noHijackElems reg xs = true →
      Dv.rehydrateArray reg xs = some xs
  | Elems.nil, _, _ => by simp [Dv.rehydrateArray]
  | Elems.cons v rest, hj, hh => by
      simp only [jsonElems, Bool.and_eq_true] at hj
      simp only [noHijackElems, Bool.and_eq_true] at hh
      have hv : v ≠ vhole := by
        intro h
        subst h
        simp [jsonVal] at hj
      rw [Dv.rehydrateArray]
      rw [if_neg hv]
      rw [dv_decode_json_id reg v hj.1 hh.1]
      rw [dv_decode_elems_id reg rest hj.2 hh.2]
      rfl

theorem dv_decode_fields_id (reg : Dv.Registry) :
    ∀ fs, jsonFields fs = true → noHijackFields reg fs = true →
      Dv.rehydrateFields reg fs = some fs
  | Fields.nil, _, _ => by simp [Dv.rehydrateFields]
  | Fields.cons k v rest, hj, hh => by
      simp only [jsonFields, Bool.and_eq_true] at hj
      simp only [noHijackFields, Bool.and_eq_true] at hh
      rw [Dv.rehydrateFields]
      rw [dv_decode_json_id reg v hj.1 hh.1]
      rw [dv_decode_fields_id reg rest hj.2 hh.2]
      rfl

end

/-- C1 counterexample.  A JSON-representable plain object, none of whose
parts is an instance of a registered constructor, that still fails to
round-trip: it carries the wrapper shape with a marker naming the
registered class X, so decode rebuilds an X instance instead of the
object. -/
theorem claim_c1_counterexample :
    jsonVal (vobj (Fields.cons typeMarkerKey (vstr "X")
        (Fields.cons dataMarkerKey (vobj Fields.nil) Fields.nil))) = true ∧
    noRegNode [("X", ctorX)]
        (vobj (Fields.cons typeMarkerKey (vstr "X")
          (Fields.cons dataMarkerKey (vobj Fields.nil) Fields.nil))) = true ∧
    Dv.rehydrate [("X", ctorX)]
        (Dv.toSerializable [("X", ctorX)]
          (vobj (Fields.cons typeMarkerKey (vstr "X")
            (Fields.cons dataMarkerKey (vobj Fields.nil) Fields.nil))))
      ≠ some (vobj (Fields.cons typeMarkerKey (vstr "X")
          (Fields.cons dataMarkerKey (vobj Fields.nil) Fields.nil))) := by
  refine ⟨by decide, by decide, ?_⟩
  have henc : Dv.toSerializable [("X", ctorX)]
      (vobj (Fields.cons typeMarkerKey (vstr "X")
        (Fields.cons dataMarkerKey (vobj Fields.nil) Fields.nil)))
      = vobj (Fields.cons typeMarkerKey (vstr "X")
          (Fields.cons dataMarkerKey (vobj Fields.nil) Fields.nil)) :=
    dv_encode_json_id [("X", ctorX)] _ (by decide) (by decide)
  rw [henc]
  have hdec : Dv.rehydrate [("X", ctorX)]
      (vobj (Fields.cons typeMarkerKey (vstr "X")
        (Fields.cons dataMarkerKey (vobj Fields.nil) Fields.nil)))
      = some (vinst ctorX.cid ctorX.instChain Fields.nil) := by
    rw [Dv.rehydrate]
    simp only [isPrimitive]
    have hw : hasTypeWrapper (vobj (Fields.cons typeMarkerKey (vstr "X")
        (Fields.cons dataMarkerKey (vobj Fields.nil) Fields.nil))) = true := by
      decide
    simp only [hw, ite_true, ite_false, if_true, if_false, Bool.false_eq_true]
    rw [dv_rehydrateClass_reg [("X", ctorX)]
      (vobj (Fields.cons typeMarkerKey (vstr "X")
        (Fields.cons dataMarkerKey (vobj Fields.nil) Fields.nil)))
      ctorX (vobj Fields.nil) rfl rfl]
    simp [Dv.rehydrateDataProps, Dv.rehydrateFields, Dv.createInstance, ctorX,
      absorbPlaceholder, assignFields]
  rw [hdec]
  simp

/-- C1 amended.  For every JSON-representable value, decoding the encoding
(devalue variant, fresh trackers) yields the value back, for any registry
in which no part of the value is an instance of a registered constructor
— provided additionally that no part of the value is an object carrying
the wrapper shape (truthy `__super_type__`, non-undefined `__data__`)
whose marker names a registered type. -/
theorem claim_c1 (reg : Dv.Registry) (v : Val)
    (hj : jsonVal v = true) (hr : noRegNode reg v = true)
    (hh : noHijack reg v = true) :
    Dv.rehydrate reg (Dv.toSerializable reg v) = some v := by
  rw [dv_encode_json_id reg v hj hr]
  exact dv_decode_json_id reg v hj hh

/-- Witness for C1 on a small JSON object with a nested array. -/
theorem claim_c1_witness :
    jsonVal (vobj (Fields.cons "a" (vnum 1)
        (Fields.cons "b" (varr (Elems.cons vnull Elems.nil)) Fields.nil))) = true ∧
    noRegNode [("X", ctorX)]
        (vobj (Fields.cons "a" (vnum 1)
          (Fields.cons "b" (varr (Elems.cons vnull Elems.nil)) Fields.nil))) = true ∧
    noHijack [("X", ctorX)]
        (vobj (Fields.cons "a" (vnum 1)
          (Fields.cons "b" (varr (Elems.cons vnull Elems.nil)) Fields.nil))) = true ∧
    Dv.rehydrate [("X", ctorX)]
        (Dv.toSerializable [("X", ctorX)]
          (vobj (Fields.cons "a" (vnum 1)
            (Fields.cons "b" (varr (Elems.cons vnull Elems.nil)) Fields.nil))))
      = some (vobj (Fields.cons "a" (vnum 1)
          (Fields.cons "b" (varr (Elems.cons vnull Elems.nil)) Fields.nil))) :=
  ⟨by decide, by decide, by decide,
    claim_c1 [("X", ctorX)] _ (by decide) (by decide) (by decide)⟩

/-! C8: the devalue-backed and V8-backed encoders compared. -/

/-- The devalue-variant registry induced by a V8-variant registry: same
names, same constructors (the reconstruction functions play no role in
encoding). -/
def projReg (reg : V8.Registry) : Dv.Registry :=
  reg.map (fun ne => (ne.1, ne.2.ctor))

theorem findRegistered_proj (reg : V8.Registry) (v : Val) :
    Dv.findRegistered (projReg reg) v
      = (V8.findRegistered reg v).map (fun ne => (ne.1, ne.2.ctor)) := by
  induction reg with
  | nil => simp [Dv.findRegistered, V8.findRegistered, projReg]
  | cons ne rest ih =>
      by_cases h : instOf v ne.2.ctor
      · simp [Dv.findRegistered, V8.findRegistered, projReg, List.find?, h]
      · simp only [Dv.findRegistered, V8.findRegistered, projReg, List.map] at ih ⊢
        rw [List.find?_cons_of_neg _ (by simpa using h),
          List.find?_cons_of_neg _ (by simpa using h)]
        exact ih

mutual

/-- Values whose graph contains no Map, no Set and no DataView — the
containers on which the two encoder variants diverge. -/
def plainGraph : Val → Bool
  | vmap _ => false
  | vset _ => false
  | vdataview _ => false
  | varr xs => plainGraphE xs
  | vobj fs => plainGraphF fs
  | vinst _ _ fs => plainGraphF fs
  | _ => true

/-- `plainGraph` over array elements. -/
def plainGraphE : Elems → Bool
  | Elems.nil => true
  | Elems.cons v rest => plainGraph v && plainGraphE rest

/-- `plainGraph` over field values. -/
def plainGraphF : Fields → Bool
  | Fields.nil => true
  | Fields.cons _ v rest => plainGraph v && plainGraphF rest

end

mutual

theorem dv_v8_encode_eq (reg : V8.Registry) :
    ∀ v, plainGraph v = true →
      Dv.toSerializable (projReg reg) v = V8.toSerializable reg v
  | vnull, _ => by simp [Dv.toSerializable, V8.toSerializable, isPrimitive]
  | vundef, _ => by simp [Dv.toSerializable, V8.toSerializable, isPrimitive]
  | vbool b, _ => by simp [Dv.toSerializable, V8.toSerializable, isPrimitive]
  | vnum n, _ => by simp [Dv.toSerializable, V8.toSerializable, isPrimitive]
  | vstr s, _ => by simp [Dv.toSerializable, V8.toSerializable, isPrimitive]
  | vbigint n, _ => by simp [Dv.toSerializable, V8.toSerializable, isPrimitive]
  | vfun id, _ => by simp [Dv.toSerializable, V8.toSerializable, isPrimitive]
  | vmap _, hp => by simp [plainGraph] at hp
  | vset _, hp => by simp [plainGraph] at hp
  | vdataview _, hp => by simp [plainGraph] at hp
  | vhole, _ => by
      rw [Dv.toSerializable, V8.toSerializable]
      rw [findRegistered_proj]
      cases hf : V8.findRegistered reg vhole with
      | none =>
          simp [isPrimitive, Dv.isNativelySerializable, isDateOrRegExp,
            Dv.isTypedArrayB, V8.isV8Native, Dv.serializeCollection,
            V8.serializeCollection, Dv.serializeOwn, V8.serializeOwn]
      | some ne => simp [isPrimitive, Dv.serializeOwn, V8.serializeOwn]
  | vdate t, _ => by
      rw [Dv.toSerializable, V8.toSerializable]
      rw [findRegistered_proj]
      cases hf : V8.findRegistered reg (vdate t) with
      | none =>
          simp [isPrimitive, Dv.isNativelySerializable, isDateOrRegExp,
            V8.isV8Native]
      | some ne =>
          simp [isPrimitive, Dv.serializeOwn, V8.serializeOwn]
  | vregexp r, _ => by
      rw [Dv.toSerializable, V8.toSerializable]
      rw [findRegistered_proj]
      cases hf : V8.findRegistered reg (vregexp r) with
      | none =>
          simp [isPrimitive, Dv.isNativelySerializable, isDateOrRegExp,
            V8.isV8Native]
      | some ne =>
          simp [isPrimitive, Dv.serializeOwn, V8.serializeOwn]
  | vtyped k, _ => by
      rw [Dv.toSerializable, V8.toSerializable]
      rw [findRegistered_proj]
      cases hf : V8.findRegistered reg (vtyped k) with
      | none =>
          simp [isPrimitive, Dv.isNativelySerializable, isDateOrRegExp,
            Dv.isTypedArrayB, V8.isV8Native]
      | some ne =>
          simp [isPrimitive, Dv.serializeOwn, V8.serializeOwn]
  | varr xs, hp => by
      simp only [plainGraph] at hp
      rw [Dv.toSerializable, V8.toSerializable]
      rw [findRegistered_proj]
      cases hf : V8.findRegistered reg (varr xs) with
      | none =>
          simp [isPrimitive, Dv.isNativelySerializable, isDateOrRegExp,
            Dv.isTypedArrayB, V8.isV8Native, Dv.serializeCollection,
            V8.serializeCollection]
          exact dv_v8_encode_elems reg xs hp
      | some ne =>
          simp [isPrimitive, Dv.serializeOwn, V8.serializeOwn]
          exact dv_v8_encode_idx reg 0 xs hp
  | vobj fs, hp => by
      simp only [plainGraph] at hp
      rw [Dv.toSerializable, V8.toSerializable]
      rw [findRegistered_proj]
      cases hf : V8.findRegistered reg (vobj fs) with
      | none =>
          simp [isPrimitive, Dv.isNativelySerializable, isDateOrRegExp,
            Dv.isTypedArrayB, V8.isV8Native, Dv.serializeCollection,
            V8.serializeCollection, Dv.serializeOwn, V8.serializeOwn]
          exact dv_v8_encode_fields reg fs hp
      | some ne =>
          simp [isPrimitive, Dv.serializeOwn, V8.serializeOwn]
          exact dv_v8_encode_fields reg fs hp
  | vinst cid ch fs, hp => by
      simp only [plainGraph] at hp
      rw [Dv.toSerializable, V8.toSerializable]
      rw [findRegistered_proj]
      cases hf : V8.findRegistered reg (vinst cid ch fs) with
      | none =>
          simp [isPrimitive, Dv.isNativelySerializable, isDateOrRegExp,
            Dv.isTypedArrayB, V8.isV8Native, Dv.serializeCollection,
            V8.serializeCollection, Dv.serializeOwn, V8.serializeOwn]
          exact dv_v8_encode_fields reg fs hp
      | some ne =>
          simp [isPrimitive, Dv.serializeOwn, V8.serializeOwn]
          exact dv_v8_encode_fields reg fs hp

theorem dv_v8_encode_elems (reg : V8.Registry) :
    ∀ xs, plainGraphE xs = true →
      Dv.serializeArray (projReg reg) xs = V8.serializeArray reg xs
  | Elems.nil, _ => by
      rw [Dv.serializeArray, V8.serializeArray]
  | Elems.cons v rest, hp => by
      simp only [plainGraphE, Bool.and_eq_true] at hp
      rw [Dv.serializeArray, V8.serializeArray]
      by_cases hv : v = vhole
      · rw [if_pos hv, if_pos hv, dv_v8_encode_elems reg rest hp.2]
      · rw [if_neg hv, if_neg hv, dv_v8_encode_eq reg v hp.1,
          dv_v8_encode_elems reg rest hp.2]

theorem dv_v8_encode_fields (reg : V8.Registry) :
    ∀ fs, plainGraphF fs = true →
      Dv.serializeFields (projReg reg) fs = V8.serializeFields reg fs
  | Fields.nil, _ => by
      rw [Dv.serializeFields, V8.serializeFields]
  | Fields.cons k v rest, hp => by
      simp only [plainGraphF, Bool.and_eq_true] at hp
      rw [Dv.serializeFields, V8.serializeFields]
      rw [dv_v8_encode_eq reg v hp.1, dv_v8_encode_fields reg rest hp.2]

theorem dv_v8_encode_idx (reg : V8.Registry) :
    ∀ (i : Nat) xs, plainGraphE xs = true →
      Dv.serializeIdx (projReg reg) i xs = V8.serializeIdx reg i xs
  | _, Elems.nil, _ => by
      rw [Dv.serializeIdx, V8.serializeIdx]
  | i, Elems.cons v rest, hp => by
      simp only [plainGraphE, Bool.and_eq_true] at hp
      rw [Dv.serializeIdx, V8.serializeIdx]
      by_cases hv : v = vhole
      · rw [if_pos hv, if_pos hv, dv_v8_encode_idx reg (i + 1) rest hp.2]
      · rw [if_neg hv, if_neg hv, dv_v8_encode_eq reg v hp.1,
          dv_v8_encode_idx reg (i + 1) rest hp.2]

end

/-- A V8 registry with `ctorX` under "P" and no reconstruction function. -/
def regP : V8.Registry := [("P", ⟨ctorX, none⟩)]

/-- C8 counterexample.  On a Map containing an instance of the registered
class, the V8-backed encoder returns the Map unchanged (the `_isV8Native`
check precedes `_serializeCollection`, so the instance inside is never
wrapped), while the devalue-backed encoder returns a new Map with the
instance wrapped — the outputs are not structurally equal. -/
theorem claim_c8_counterexample :
    V8.toSerializable regP
        (vmap (Pairs.cons (vstr "k")
          (vinst 100 [100, objectCid] (Fields.cons "s" (vnum 5) Fields.nil))
          Pairs.nil))
      = vmap (Pairs.cons (vstr "k")
          (vinst 100 [100, objectCid] (Fields.cons "s" (vnum 5) Fields.nil))
          Pairs.nil) ∧
    Dv.toSerializable (projReg regP)
        (vmap (Pairs.cons (vstr "k")
          (vinst 100 [100, objectCid] (Fields.cons "s" (vnum 5) Fields.nil))
          Pairs.nil))
      = vmap (Pairs.cons (vstr "k")
          (vobj (Fields.cons typeMarkerKey (vstr "P")
            (Fields.cons dataMarkerKey
              (vobj (Fields.cons "s" (vnum 5) Fields.nil)) Fields.nil)))
          Pairs.nil) ∧
    Dv.toSerializable (projReg regP)
        (vmap (Pairs.cons (vstr "k")
          (vinst 100 [100, objectCid] (Fields.cons "s" (vnum 5) Fields.nil))
          Pairs.nil))
      ≠ V8.toSerializable regP
          (vmap (Pairs.cons (vstr "k")
            (vinst 100 [100, objectCid] (Fields.cons "s" (vnum 5) Fields.nil))
            Pairs.nil)) := by
  have h1 : V8.toSerializable regP
      (vmap (Pairs.cons (vstr "k")
        (vinst 100 [100, objectCid] (Fields.cons "s" (vnum 5) Fields.nil))
        Pairs.nil))
      = vmap (Pairs.cons (vstr "k")
          (vinst 100 [100, objectCid] (Fields.cons "s" (vnum 5) Fields.nil))
          Pairs.nil) := by
    simp [V8.toSerializable, isPrimitive, V8.findRegistered, instOf, protoChain,
      regP, ctorX, mapCid, objectCid, V8.isV8Native]
  have h2 : Dv.toSerializable (projReg regP)
      (vmap (Pairs.cons (vstr "k")
        (vinst 100 [100, objectCid] (Fields.cons "s" (vnum 5) Fields.nil))
        Pairs.nil))
      = vmap (Pairs.cons (vstr "k")
          (vobj (Fields.cons typeMarkerKey (vstr "P")
            (Fields.cons dataMarkerKey
              (vobj (Fields.cons "s" (vnum 5) Fields.nil)) Fields.nil)))
          Pairs.nil) := by
    simp [Dv.toSerializable, isPrimitive, Dv.findRegistered, instOf, protoChain,
      projReg, regP, ctorX, mapCid, objectCid, Dv.isNativelySerializable,
      isDateOrRegExp, Dv.isTypedArrayB, Dv.serializeCollection, Dv.serializeMap,
      Dv.serializeOwn, Dv.serializeFields, List.find?]
  refine ⟨h1, h2, ?_⟩
  rw [h1, h2]
  simp

/-- C8 amended.  For every V8 registry and every value whose graph contains
no Map, no Set and no DataView, the devalue-backed and V8-backed
`_toSerializable` produce structurally equal transport-safe values (in
particular both recursively wrap registered instances nested inside
arrays and plain objects); on Map/Set the V8 variant instead passes the
container through untouched. -/
theorem claim_c8 (reg : V8.Registry) (v : Val) (hp : plainGraph v = true) :
    Dv.toSerializable (projReg reg) v = V8.toSerializable reg v :=
  dv_v8_encode_eq reg v hp

/-- Witness for C8 on an array containing a registered instance: both
variants wrap it identically. -/
theorem claim_c8_witness :
    plainGraph (varr (Elems.cons
        (vinst 100 [100, objectCid] (Fields.cons "s" (vnum 5) Fields.nil))
        Elems.nil)) = true ∧
    Dv.toSerializable (projReg regP)
        (varr (Elems.cons
          (vinst 100 [100, objectCid] (Fields.cons "s" (vnum 5) Fields.nil))
          Elems.nil))
      = V8.toSerializable regP
          (varr (Elems.cons
            (vinst 100 [100, objectCid] (Fields.cons "s" (vnum 5) Fields.nil))
            Elems.nil)) :=
  ⟨by decide,
    claim_c8 regP
      (varr (Elems.cons
        (vinst 100 [100, objectCid] (Fields.cons "s" (vnum 5) Fields.nil))
        Elems.nil))
      (by decide)⟩

/-! C2: cycle preservation on the heap model. -/

namespace Graph

mutual

theorem encodeG_tmono : ∀ (f : Nat) (hin : Heap) (v : HVal) (t : Tracker) (H : Heap)
    (r : HVal × Tracker × Heap), encodeG f hin v t H = some r →
    ∀ x y, tfind t x = some y → tfind r.2.1 x = some y
  | 0, _, _, _, _, _, h => by simp [encodeG] at h
  | Nat.succ f, hin, HVal.href a, t, H, r, h => by
      simp only [encodeG] at h
      cases ht : tfind t a with
      | some b =>
          simp only [ht] at h
          cases h
          exact fun x y hx => hx
      | none =>
          simp only [ht] at h
          cases hn : nodeAt hin a with
          | none =>
              simp only [hn] at h
              exact Option.noConfusion h
          | some fields =>
              simp only [hn] at h
              cases hfs : encodeGFields f hin fields ((a, H.length) :: t) (H ++ [[]]) with
              | none =>
                  simp only [hfs] at h
                  exact Option.noConfusion h
              | some r2 =>
                  obtain ⟨fs2, t2, H2⟩ := r2
                  simp only [hfs] at h
                  cases h
                  intro x y hx
                  have hxa : ¬ a = x := by
                    intro he
                    rw [← he] at hx
                    rw [hx] at ht
                    cases ht
                  have hx2 : tfind ((a, H.length) :: t) x = some y := by
                    simp only [tfind, if_neg hxa]
                    exact hx
                  exact encodeGFields_tmono f hin fields ((a, H.length) :: t)
                    (H ++ [[]]) (fs2, t2, H2) hfs x y hx2
  | Nat.succ f, hin, HVal.hnull, t, H, r, h => by
      simp only [encodeG] at h
      cases h
      exact fun x y hx => hx
  | Nat.succ f, hin, HVal.hundef, t, H, r, h => by
      simp only [encodeG] at h
      cases h
      exact fun x y hx => hx
  | Nat.succ f, hin, HVal.hbool b, t, H, r, h => by
      simp only [encodeG] at h
      cases h
      exact fun x y hx => hx
  | Nat.succ f, hin, HVal.hnum n, t, H, r, h => by
      simp only [encodeG] at h
      cases h
      exact fun x y hx => hx
  | Nat.succ f, hin, HVal.hstr s, t, H, r, h => by
      simp only [encodeG] at h
      cases h
      exact fun x y hx => hx

theorem encodeGFields_tmono : ∀ (f : Nat) (hin : Heap) (fields : HNode)
    (t : Tracker) (H : Heap) (r : HNode × Tracker × Heap),
    encodeGFields f hin fields t H = some r →
    ∀ x y, tfind t x = some y → tfind r.2.1 x = some y
  | 0, _, _, _, _, _, h => by simp [encodeGFields] at h
  | Nat.succ f, hin, [], t, H, r, h => by
      simp only [encodeGFields] at h
      cases h
      exact fun x y hx => hx
  | Nat.succ f, hin, (k, v) :: rest, t, H, r, h => by
      simp only [encodeGFields] at h
      cases he : encodeG f hin v t H with
      | none =>
          simp only [he] at h
          exact Option.noConfusion h
      | some r1 =>
          obtain ⟨v2, t2, H2⟩ := r1
          simp only [he] at h
          cases hr : encodeGFields f hin rest t2 H2 with
          | none =>
              simp only [hr] at h
              exact Option.noConfusion h
          | some r2 =>
              obtain ⟨fs2, t3, H3⟩ := r2
              simp only [hr] at h
              cases h
              intro x y hx
              exact encodeGFields_tmono f hin rest t2 H2 (fs2, t3, H3) hr x y
                (encodeG_tmono f hin v t H (v2, t2, H2) he x y hx)

end

mutual

theorem encodeG_hlen : ∀ (f : Nat) (hin : Heap) (v : HVal) (t : Tracker) (H : Heap)
    (r : HVal × Tracker × Heap), encodeG f hin v t H = some r →
    H.length ≤ r.2.2.length
  | 0, _, _, _, _, _, h => by simp [encodeG] at h
  | Nat.succ f, hin, HVal.href a, t, H, r, h => by
      simp only [encodeG] at h
      cases ht : tfind t a with
      | some b =>
          simp only [ht] at h
          cases h
          exact Nat.le_refl _
      | none =>
          simp only [ht] at h
          cases hn : nodeAt hin a with
          | none =>
              simp only [hn] at h
              exact Option.noConfusion h
          | some fields =>
              simp only [hn] at h
              cases hfs : encodeGFields f hin fields ((a, H.length) :: t) (H ++ [[]]) with
              | none =>
                  simp only [hfs] at h
                  exact Option.noConfusion h
              | some r2 =>
                  obtain ⟨fs2, t2, H2⟩ := r2
                  simp only [hfs] at h
                  cases h
                  have h1 : (H ++ [[]]).length ≤ H2.length :=
                    encodeGFields_hlen f hin fields ((a, H.length) :: t)
                      (H ++ [[]]) (fs2, t2, H2) hfs
                  simp only [setNode, List.length_set]
                  simp at h1
                  omega
  | Nat.succ f, hin, HVal.hnull, t, H, r, h => by
      simp only [encodeG] at h
      cases h
      exact Nat.le_refl _
  | Nat.succ f, hin, HVal.hundef, t, H, r, h => by
      simp only [encodeG] at h
      cases h
      exact Nat.le_refl _
  | Nat.succ f, hin, HVal.hbool b, t, H, r, h => by
      simp only [encodeG] at h
      cases h
      exact Nat.le_refl _
  | Nat.succ f, hin, HVal.hnum n, t, H, r, h => by
      simp only [encodeG] at h
      cases h
      exact Nat.le_refl _
  | Nat.succ f, hin, HVal.hstr s, t, H, r, h => by
      simp only [encodeG] at h
      cases h
      exact Nat.le_refl _

theorem encodeGFields_hlen : ∀ (f : Nat) (hin : Heap) (fields : HNode)
    (t : Tracker) (H : Heap) (r : HNode × Tracker × Heap),
    encodeGFields f hin fields t H = some r → H.length ≤ r.2.2.length
  | 0, _, _, _, _, _, h => by simp [encodeGFields] at h
  | Nat.succ f, hin, [], t, H, r, h => by
      simp only [encodeGFields] at h
      cases h
      exact Nat.le_refl _
  | Nat.succ f, hin, (k, v) :: rest, t, H, r, h => by
      simp only [encodeGFields] at h
      cases he : encodeG f hin v t H with
      | none =>
          simp only [he] at h
          exact Option.noConfusion h
      | some r1 =>
          obtain ⟨v2, t2, H2⟩ := r1
          simp only [he] at h
          cases hr : encodeGFields f hin rest t2 H2 with
          | none =>
              simp only [hr] at h
              exact Option.noConfusion h
          | some r2 =>
              obtain ⟨fs2, t3, H3⟩ := r2
              simp only [hr] at h
              cases h
              have h1 := encodeG_hlen f hin v t H (v2, t2, H2) he
              have h2 := encodeGFields_hlen f hin rest t2 H2 (fs2, t3, H3) hr
              simp at h1 h2 ⊢
              omega

end

theorem encodeGFields_track : ∀ (f : Nat) (hin : Heap) (fields : HNode)
    (t : Tracker) (H : Heap) (r : HNode × Tracker × Heap) (a b : Nat),
    encodeGFields f hin fields t H = some r → tfind t a = some b →
    ∀ k, lookupH fields k = some (HVal.href a) →
      lookupH r.1 k = some (HVal.href b)
  | 0, _, _, _, _, _, _, _, h, _ => by simp [encodeGFields] at h
  | Nat.succ f, hin, [], t, H, r, a, b, h, htb => by
      intro k hk
      simp [lookupH] at hk
  | Nat.succ f, hin, (k0, v0) :: rest, t, H, r, a, b, h, htb => by
      simp only [encodeGFields] at h
      cases he : encodeG f hin v0 t H with
      | none =>
          simp only [he] at h
          exact Option.noConfusion h
      | some r1 =>
          obtain ⟨v2, t2, H2⟩ := r1
          simp only [he] at h
          cases hr : encodeGFields f hin rest t2 H2 with
          | none =>
              simp only [hr] at h
              exact Option.noConfusion h
          | some r2 =>
              obtain ⟨fs2, t3, H3⟩ := r2
              simp only [hr] at h
              cases h
              intro k hk
              by_cases hk0 : k0 = k
              · rw [lookupH, if_pos hk0] at hk
                cases hk
                cases f with
                | zero => simp [encodeG] at he
                | succ f2 =>
                    simp only [encodeG, htb] at he
                    cases he
                    simp [lookupH, hk0]
              · rw [lookupH, if_neg hk0] at hk
                have ht2 : tfind t2 a = some b :=
                  encodeG_tmono f hin v0 t H (v2, t2, H2) he a b htb
                have := encodeGFields_track f hin rest t2 H2 (fs2, t3, H3) a b hr ht2 k hk
                simp only [lookupH, if_neg hk0]
                exact this

theorem encodeG_obj (f : Nat) (hin : Heap) (a : Nat) (t : Tracker) (H : Heap)
    (fields : HNode) (r : HVal × Tracker × Heap)
    (ht : tfind t a = none) (hn : nodeAt hin a = some fields)
    (h : encodeG (f + 1) hin (HVal.href a) t H = some r) :
    r.1 = HVal.href H.length ∧
    ∃ n, nodeAt r.2.2 H.length = some n ∧
      ∀ k, lookupH fields k = some (HVal.href a) →
        lookupH n k = some (HVal.href H.length) := by
  simp only [encodeG, ht, hn] at h
  cases hfs : encodeGFields f hin fields ((a, H.length) :: t) (H ++ [[]]) with
  | none =>
      simp only [hfs] at h
      exact Option.noConfusion h
  | some r2 =>
      obtain ⟨fs2, t2, H2⟩ := r2
      simp only [hfs] at h
      cases h
      have hlen : H.length + 1 ≤ H2.length := by
        have := encodeGFields_hlen f hin fields ((a, H.length) :: t)
          (H ++ [[]]) (fs2, t2, H2) hfs
        simpa using this
      refine ⟨rfl, fs2, ?_, ?_⟩
      · simp only [nodeAt, setNode]
        exact List.getElem?_set_eq_of_lt fs2 (by omega)
      · intro k hk
        have htb : tfind ((a, H.length) :: t) a = some H.length := by
          simp [tfind]
        exact encodeGFields_track f hin fields ((a, H.length) :: t)
          (H ++ [[]]) (fs2, t2, H2) a H.length hfs htb k hk


mutual

theorem decodeG_tmono : ∀ (f : Nat) (hin : Heap) (v : HVal) (t : Tracker) (H : Heap)
    (r : HVal × Tracker × Heap), decodeG f hin v t H = some r →
    ∀ x y, tfind t x = some y → tfind r.2.1 x = some y
  | 0, _, _, _, _, _, h => by simp [decodeG] at h
  | Nat.succ f, hin, HVal.href a, t, H, r, h => by
      simp only [decodeG] at h
      cases ht : tfind t a with
      | some b =>
          simp only [ht] at h
          cases h
          exact fun x y hx => hx
      | none =>
          simp only [ht] at h
          cases hn : nodeAt hin a with
          | none =>
              simp only [hn] at h
              exact Option.noConfusion h
          | some fields =>
              simp only [hn] at h
              cases hfs : decodeGFields f hin fields ((a, H.length) :: t) (H ++ [[]]) with
              | none =>
                  simp only [hfs] at h
                  exact Option.noConfusion h
              | some r2 =>
                  obtain ⟨fs2, t2, H2⟩ := r2
                  simp only [hfs] at h
                  cases h
                  intro x y hx
                  have hxa : ¬ a = x := by
                    intro he
                    rw [← he] at hx
                    rw [hx] at ht
                    cases ht
                  have hx2 : tfind ((a, H.length) :: t) x = some y := by
                    simp only [tfind, if_neg hxa]
                    exact hx
                  exact decodeGFields_tmono f hin fields ((a, H.length) :: t)
                    (H ++ [[]]) (fs2, t2, H2) hfs x y hx2
  | Nat.succ f, hin, HVal.hnull, t, H, r, h => by
      simp only [decodeG] at h
      cases h
      exact fun x y hx => hx
  | Nat.succ f, hin, HVal.hundef, t, H, r, h => by
      simp only [decodeG] at h
      cases h
      exact fun x y hx => hx
  | Nat.succ f, hin, HVal.hbool b, t, H, r, h => by
      simp only [decodeG] at h
      cases h
      exact fun x y hx => hx
  | Nat.succ f, hin, HVal.hnum n, t, H, r, h => by
      simp only [decodeG] at h
      cases h
      exact fun x y hx => hx
  | Nat.succ f, hin, HVal.hstr s, t, H, r, h => by
      simp only [decodeG] at h
      cases h
      exact fun x y hx => hx

theorem decodeGFields_tmono : ∀ (f : Nat) (hin : Heap) (fields : HNode)
    (t : Tracker) (H : Heap) (r : HNode × Tracker × Heap),
    decodeGFields f hin fields t H = some r →
    ∀ x y, tfind t x = some y → tfind r.2.1 x = some y
  | 0, _, _, _, _, _, h => by simp [decodeGFields] at h
  | Nat.succ f, hin, [], t, H, r, h => by
      simp only [decodeGFields] at h
      cases h
      exact fun x y hx => hx
  | Nat.succ f, hin, (k, v) :: rest, t, H, r, h => by
      simp only [decodeGFields] at h
      cases he : decodeG f hin v t H with
      | none =>
          simp only [he] at h
          exact Option.noConfusion h
      | some r1 =>
          obtain ⟨v2, t2, H2⟩ := r1
          simp only [he] at h
          cases hr : decodeGFields f hin rest t2 H2 with
          | none =>
              simp only [hr] at h
              exact Option.noConfusion h
          | some r2 =>
              obtain ⟨fs2, t3, H3⟩ := r2
              simp only [hr] at h
              cases h
              intro x y hx
              exact decodeGFields_tmono f hin rest t2 H2 (fs2, t3, H3) hr x y
                (decodeG_tmono f hin v t H (v2, t2, H2) he x y hx)

end

mutual

theorem decodeG_hlen : ∀ (f : Nat) (hin : Heap) (v : HVal) (t : Tracker) (H : Heap)
    (r : HVal × Tracker × Heap), decodeG f hin v t H = some r →
    H.length ≤ r.2.2.length
  | 0, _, _, _, _, _, h => by simp [decodeG] at h
  | Nat.succ f, hin, HVal.href a, t, H, r, h => by
      simp only [decodeG] at h
      cases ht : tfind t a with
      | some b =>
          simp only [ht] at h
          cases h
          exact Nat.le_refl _
      | none =>
          simp only [ht] at h
          cases hn : nodeAt hin a with
          | none =>
              simp only [hn] at h
              exact Option.noConfusion h
          | some fields =>
              simp only [hn] at h
              cases hfs : decodeGFields f hin fields ((a, H.length) :: t) (H ++ [[]]) with
              | none =>
                  simp only [hfs] at h
                  exact Option.noConfusion h
              | some r2 =>
                  obtain ⟨fs2, t2, H2⟩ := r2
                  simp only [hfs] at h
                  cases h
                  have h1 : (H ++ [[]]).length ≤ H2.length :=
                    decodeGFields_hlen f hin fields ((a, H.length) :: t)
                      (H ++ [[]]) (fs2, t2, H2) hfs
                  simp only [setNode, List.length_set]
                  simp at h1
                  omega
  | Nat.succ f, hin, HVal.hnull, t, H, r, h => by
      simp only [decodeG] at h
      cases h
      exact Nat.le_refl _
  | Nat.succ f, hin, HVal.hundef, t, H, r, h => by
      simp only [decodeG] at h
      cases h
      exact Nat.le_refl _
  | Nat.succ f, hin, HVal.hbool b, t, H, r, h => by
      simp only [decodeG] at h
      cases h
      exact Nat.le_refl _
  | Nat.succ f, hin, HVal.hnum n, t, H, r, h => by
      simp only [decodeG] at h
      cases h
      exact Nat.le_refl _
  | Nat.succ f, hin, HVal.hstr s, t, H, r, h => by
      simp only [decodeG] at h
      cases h
      exact Nat.le_refl _

theorem decodeGFields_hlen : ∀ (f : Nat) (hin : Heap) (fields : HNode)
    (t : Tracker) (H : Heap) (r : HNode × Tracker × Heap),
    decodeGFields f hin fields t H = some r → H.length ≤ r.2.2.length
  | 0, _, _, _, _, _, h => by simp [decodeGFields] at h
  | Nat.succ f, hin, [], t, H, r, h => by
      simp only [decodeGFields] at h
      cases h
      exact Nat.le_refl _
  | Nat.succ f, hin, (k, v) :: rest, t, H, r, h => by
      simp only [decodeGFields] at h
      cases he : decodeG f hin v t H with
      | none =>
          simp only [he] at h
          exact Option.noConfusion h
      | some r1 =>
          obtain ⟨v2, t2, H2⟩ := r1
          simp only [he] at h
          cases hr : decodeGFields f hin rest t2 H2 with
          | none =>
              simp only [hr] at h
              exact Option.noConfusion h
          | some r2 =>
              obtain ⟨fs2, t3, H3⟩ := r2
              simp only [hr] at h
              cases h
              have h1 := decodeG_hlen f hin v t H (v2, t2, H2) he
              have h2 := decodeGFields_hlen f hin rest t2 H2 (fs2, t3, H3) hr
              simp at h1 h2 ⊢
              omega

end

theorem decodeGFields_track : ∀ (f : Nat) (hin : Heap) (fields : HNode)
    (t : Tracker) (H : Heap) (r : HNode × Tracker × Heap) (a b : Nat),
    decodeGFields f hin fields t H = some r → tfind t a = some b →
    ∀ k, lookupH fields k = some (HVal.href a) →
      lookupH r.1 k = some (HVal.href b)
  | 0, _, _, _, _, _, _, _, h, _ => by simp [decodeGFields] at h
  | Nat.succ f, hin, [], t, H, r, a, b, h, htb => by
      intro k hk
      simp [lookupH] at hk
  | Nat.succ f, hin, (k0, v0) :: rest, t, H, r, a, b, h, htb => by
      simp only [decodeGFields] at h
      cases he : decodeG f hin v0 t H with
      | none =>
          simp only [he] at h
          exact Option.noConfusion h
      | some r1 =>
          obtain ⟨v2, t2, H2⟩ := r1
          simp only [he] at h
          cases hr : decodeGFields f hin rest t2 H2 with
          | none =>
              simp only [hr] at h
              exact Option.noConfusion h
          | some r2 =>
              obtain ⟨fs2, t3, H3⟩ := r2
              simp only [hr] at h
              cases h
              intro k hk
              by_cases hk0 : k0 = k
              · rw [lookupH, if_pos hk0] at hk
                cases hk
                cases f with
                | zero => simp [decodeG] at he
                | succ f2 =>
                    simp only [decodeG, htb] at he
                    cases he
                    simp [lookupH, hk0]
              · rw [lookupH, if_neg hk0] at hk
                have ht2 : tfind t2 a = some b :=
                  decodeG_tmono f hin v0 t H (v2, t2, H2) he a b htb
                have := decodeGFields_track f hin rest t2 H2 (fs2, t3, H3) a b hr ht2 k hk
                simp only [lookupH, if_neg hk0]
                exact this

theorem decodeG_obj (f : Nat) (hin : Heap) (a : Nat) (t : Tracker) (H : Heap)
    (fields : HNode) (r : HVal × Tracker × Heap)
    (ht : tfind t a = none) (hn : nodeAt hin a = some fields)
    (h : decodeG (f + 1) hin (HVal.href a) t H = some r) :
    r.1 = HVal.href H.length ∧
    ∃ n, nodeAt r.2.2 H.length = some n ∧
      ∀ k, lookupH fields k = some (HVal.href a) →
        lookupH n k = some (HVal.href H.length) := by
  simp only [decodeG, ht, hn] at h
  cases hfs : decodeGFields f hin fields ((a, H.length) :: t) (H ++ [[]]) with
  | none =>
      simp only [hfs] at h
      exact Option.noConfusion h
  | some r2 =>
      obtain ⟨fs2, t2, H2⟩ := r2
      simp only [hfs] at h
      cases h
      have hlen : H.length + 1 ≤ H2.length := by
        have := decodeGFields_hlen f hin fields ((a, H.length) :: t)
          (H ++ [[]]) (fs2, t2, H2) hfs
        simpa using this
      refine ⟨rfl, fs2, ?_, ?_⟩
      · simp only [nodeAt, setNode]
        exact List.getElem?_set_eq_of_lt fs2 (by omega)
      · intro k hk
        have htb : tfind ((a, H.length) :: t) a = some H.length := by
          simp [tfind]
        exact decodeGFields_track f hin fields ((a, H.length) :: t)
          (H ++ [[]]) (fs2, t2, H2) a H.length hfs htb k hk


/-- C2.  For every heap whose node at `a` has a field "self" referencing
`a` itself, a successful encode of that object (fresh tracker, empty
output heap) followed by a successful decode of the result yields a
reference `c` whose node's "self" field is a reference to `c` itself —
reference identity is preserved, because both walks register the
replacement in the tracker before recursing into the fields. -/
theorem claim_c2 (fe fd : Nat) (hin : Heap) (a : Nat) (fields : HNode)
    (ev dv : HVal) (te td : Tracker) (He Hd : Heap)
    (hn : nodeAt hin a = some fields)
    (hself : lookupH fields "self" = some (HVal.href a))
    (henc : encodeG (fe + 1) hin (HVal.href a) [] [] = some (ev, te, He))
    (hdec : decodeG (fd + 1) He ev [] [] = some (dv, td, Hd)) :
    ∃ c n, dv = HVal.href c ∧ nodeAt Hd c = some n ∧
      lookupH n "self" = some (HVal.href c) := by
  obtain ⟨hev, ne, hne, hneself⟩ :=
    encodeG_obj fe hin a [] [] fields (ev, te, He) rfl hn henc
  have hneself2 : lookupH ne "self" = some (HVal.href 0) := by
    have := hneself "self" hself
    simpa using this
  have hne0 : nodeAt He 0 = some ne := by simpa using hne
  rw [show ev = HVal.href 0 by simpa using hev] at hdec
  obtain ⟨hdv, n, hnd, hndself⟩ :=
    decodeG_obj fd He 0 [] [] ne (dv, td, Hd) rfl hne0 hdec
  refine ⟨0, n, by simpa using hdv, by simpa using hnd, ?_⟩
  have := hndself "self" hneself2
  simpa using this

/-- Witness for C2 on the one-node heap `{self: <itself>}`. -/
theorem claim_c2_witness :
    nodeAt [[("self", HVal.href 0)]] 0 = some [("self", HVal.href 0)] ∧
    encodeG 3 [[("self", HVal.href 0)]] (HVal.href 0) [] []
      = some (HVal.href 0, [(0, 0)], [[("self", HVal.href 0)]]) ∧
    decodeG 3 [[("self", HVal.href 0)]] (HVal.href 0) [] []
      = some (HVal.href 0, [(0, 0)], [[("self", HVal.href 0)]]) ∧
    (∃ c n, HVal.href 0 = HVal.href c ∧
      nodeAt [[("self", HVal.href 0)]] c = some n ∧
      lookupH n "self" = some (HVal.href c)) :=
  ⟨rfl, by decide, by decide,
    claim_c2 2 2 [[("self", HVal.href 0)]] 0 [("self", HVal.href 0)]
      (HVal.href 0) (HVal.href 0) [(0, 0)] [(0, 0)]
      [[("self", HVal.href 0)]] [[("self", HVal.href 0)]]
      rfl rfl (by decide) (by decide)⟩

end Graph

end SuperLS